import Mathlib

/-! Hildegard Scheduler: a shallow embedding of `src/App.jsx`.

The component `ProfessorScheduler` keeps six `useState` cells; they are gathered
in the record `State`, and every event handler of the source is a function on
that record.  The pure helpers of the source (`getSessionAvailability`,
`isWeekend`, `formatTime`, `getSessionProgress`) are translated one to one.

Numbers.  Counters that only ever hold small non-negative integers
(`sessionTime`, `completedSessions`, list lengths) are natural numbers.
Quotients and sums that leave the integers (`completed / length * 100`,
`sessionTime / 3600`, `totalHours`) are IEEE-754 doubles in the source; they are
rationals here and every arithmetic operation rounds its exact result to the
nearest double, ties to even (`F64.round`).
-/

namespace Scheduler

/-! ## Constants -/

/-- Keys of the table `WORK_AREAS`. -/
inductive WorkArea where
  | lecture
  | research
  | paper
  | book
  | education
  deriving DecidableEq, Repr

/-- Keys of the table `SESSIONS`. -/
inductive SessionKey where
  | morning
  | midday
  | afternoon
  deriving DecidableEq, Repr

/-- A row of the table `SESSIONS`. -/
structure SessionInfo where
  name : String
  time : String
  duration : Nat
  icon : String
  deriving DecidableEq, Repr

/-- The table `SESSIONS`, as `Object.entries` enumerates it (insertion order). -/
def SESSIONS : List (SessionKey × SessionInfo) :=
  [ (SessionKey.morning, ⟨"아침 세션", "06:00-08:30", 150, "☀️"⟩),
    (SessionKey.midday, ⟨"오전 세션", "09:30-13:00", 210, "🌤️"⟩),
    (SessionKey.afternoon, ⟨"오후 세션", "14:00-18:00", 240, "🌆"⟩) ]

/-! ## Dates and availability -/

/-- The two accessors of a JavaScript `Date` that the component reads for its
logic: `getMonth()` is 0..11 and `getDay()` is 0..6 with 0 = Sunday. -/
structure JsDate where
  getMonth : Fin 12
  getDay : Fin 7
  deriving DecidableEq, Repr

/-- The object returned by `getSessionAvailability`. -/
structure Availability where
  morning : Bool
  midday : Bool
  afternoon : Bool
  deriving DecidableEq, Repr

/-- Property lookup `sessionAvailability[key]`. -/
def Availability.get (a : Availability) : SessionKey → Bool
  | SessionKey.morning => a.morning
  | SessionKey.midday => a.midday
  | SessionKey.afternoon => a.afternoon

/-- Source: `getSessionAvailability` (App.jsx 20-40). -/
def getSessionAvailability (date : JsDate) : Availability :=
  let day := date.getDay.val
  let month := date.getMonth.val + 1
  if month ≤ 2 then
    { morning := true, midday := true, afternoon := true }
  else if month ≥ 3 ∧ month ≤ 6 then
    if day = 4 then
      { morning := true, midday := true, afternoon := false }
    else if day = 5 then
      { morning := true, midday := false, afternoon := false }
    else
      { morning := true, midday := true, afternoon := true }
  else
    { morning := true, midday := true, afternoon := true }

/-- Source: `isWeekend` (App.jsx 43-46). -/
def isWeekend (date : JsDate) : Bool :=
  let day := date.getDay.val
  day == 0 || day == 6

/-- Source: `availableSessions` in `HomeView` (App.jsx 96-99), the entries of
`SESSIONS` that pass the filter. -/
def availableSessions (date : JsDate) : List (SessionKey × SessionInfo) :=
  SESSIONS.filter fun entry =>
    if isWeekend date && entry.1 == SessionKey.afternoon then false
    else (getSessionAvailability date).get entry.1

/-! ## Component state -/

/-- A task object `{ title, area, completed }`. -/
structure Task where
  title : String
  area : WorkArea
  completed : Bool
  deriving DecidableEq, Repr

/-- The `tasks` object: one optional array per session key (`none` is an absent
key, which the source guards against with `|| []`). -/
structure TaskStore where
  morning : Option (List Task)
  midday : Option (List Task)
  afternoon : Option (List Task)
  deriving DecidableEq, Repr

/-- Property lookup `tasks[key]`. -/
def TaskStore.get (t : TaskStore) : SessionKey → Option (List Task)
  | SessionKey.morning => t.morning
  | SessionKey.midday => t.midday
  | SessionKey.afternoon => t.afternoon

/-- Property assignment `tasks[key] = v`. -/
def TaskStore.set (t : TaskStore) (k : SessionKey) (v : List Task) : TaskStore :=
  match k with
  | SessionKey.morning => { t with morning := some v }
  | SessionKey.midday => { t with midday := some v }
  | SessionKey.afternoon => { t with afternoon := some v }

/-- The expression `tasks[key] || []`. -/
def TaskStore.list (t : TaskStore) (k : SessionKey) : List Task :=
  (t.get k).getD []

/-- The `weeklyStats` object.  `byArea` is an object keyed by work area; it is
kept as the list of its entries. -/
structure WeeklyStats where
  completedSessions : Nat
  totalHours : ℚ
  byArea : List (WorkArea × ℚ)
  deriving DecidableEq

/-- Values of `currentView`. -/
inductive View where
  | home
  | session
  | addTask
  | projects
  | stats
  deriving DecidableEq, Repr

/-- The `useState` cells of `ProfessorScheduler` (App.jsx 49-62). -/
structure State where
  currentView : View
  selectedSession : Option SessionKey
  sessionTime : Nat
  isWorking : Bool
  tasks : TaskStore
  weeklyStats : WeeklyStats
  deriving DecidableEq

/-- The initial values passed to `useState`. -/
def State.init : State :=
  { currentView := View.home
    selectedSession := none
    sessionTime := 0
    isWorking := false
    tasks := { morning := some [], midday := some [], afternoon := some [] }
    weeklyStats := { completedSessions := 0, totalHours := 0, byArea := [] } }

/-- The screens the component can return. -/
inductive Screen where
  | HomeView
  | SessionView
  | AddTaskView
  | ProjectsView
  | StatsView
  deriving DecidableEq, Repr

/-- Source: the render dispatch at the end of the component (App.jsx 567-580). -/
def renderDispatch (st : State) : Screen :=
  if st.currentView = View.session ∧ st.selectedSession.isSome then Screen.SessionView
  else if st.currentView = View.addTask then Screen.AddTaskView
  else if st.currentView = View.projects then Screen.ProjectsView
  else if st.currentView = View.stats then Screen.StatsView
  else Screen.HomeView

/-! ## HomeView handlers -/

/-- Source: the session card `onClick` (App.jsx 136):
`!hasClass && setSelectedSession(key)` with `hasClass = !sessionAvailability[key]`. -/
def cardOnClick (date : JsDate) (key : SessionKey) (st : State) : State :=
  let hasClass := !(getSessionAvailability date).get key
  if !hasClass then { st with selectedSession := some key } else st

/-- Source: the add-task button `onClick` inside a card (App.jsx 193-197). -/
def addTaskButtonOnClick (key : SessionKey) (st : State) : State :=
  { st with selectedSession := some key, currentView := View.addTask }

/-- The clickable elements of `HomeView`. -/
inductive HomeClick where
  | card (key : SessionKey)
  | addTaskButton (key : SessionKey)
  | projects
  | stats
  deriving DecidableEq, Repr

/-- A click on an element of `HomeView`: `none` when the element is not
rendered.  Cards are rendered for the keys of `availableSessions` only
(App.jsx 125), and the add-task button only inside a card whose task list is
empty (App.jsx 174, 190-200); its handler stops propagation, so the card's
handler does not run after it. -/
def HomeView.onClick (date : JsDate) (st : State) : HomeClick → Option State
  | HomeClick.card key =>
    if key ∈ (availableSessions date).map Prod.fst then some (cardOnClick date key st)
    else none
  | HomeClick.addTaskButton key =>
    if key ∈ (availableSessions date).map Prod.fst ∧ (st.tasks.list key).length = 0 then
      some (addTaskButtonOnClick key st)
    else none
  | HomeClick.projects => some { st with currentView := View.projects }
  | HomeClick.stats => some { st with currentView := View.stats }

/-! ## Numbers: IEEE-754 binary64 arithmetic on rationals -/

namespace F64

/-- Nearest integer to `x`, a tie going to the even neighbour. -/
def roundHalfEven (x : ℚ) : ℤ :=
  let f := ⌊x⌋
  if x - f < 1 / 2 then f
  else if 1 / 2 < x - f then f + 1
  else if f % 2 = 0 then f
  else f + 1

/-- Exponent of the spacing of doubles around `x`: 52 below the binary exponent
of `x`, and never below the subnormal spacing `2 ^ (-1074)`. -/
def quantum (x : ℚ) : ℤ :=
  max (Int.log 2 |x| - 52) (-1074)

/-- The double nearest to the rational `x` (round to nearest, ties to even).
Finite results only: a magnitude of `2 ^ 1024` or more is `Infinity` in the
source and is not represented here. -/
def round (x : ℚ) : ℚ :=
  if x = 0 then 0 else (roundHalfEven (x / 2 ^ quantum x) : ℚ) * 2 ^ quantum x

/-- The operator `+` on doubles. -/
def add (x y : ℚ) : ℚ := round (x + y)

/-- The operator `*` on doubles. -/
def mul (x y : ℚ) : ℚ := round (x * y)

/-- The operator `/` on doubles, for a non-zero divisor. -/
def div (x y : ℚ) : ℚ := round (x / y)

end F64

/-- `Math.round`: the integer nearest to `x`, a tie going up. -/
def Math.round (x : ℚ) : ℤ := ⌊x + 1 / 2⌋

/-- `Math.floor`. -/
def Math.floor (x : ℚ) : ℤ := ⌊x⌋

/-! ## Timer, formatting and progress -/

/-- Source: the interval callback installed by the effect (App.jsx 70-78).  The
interval exists only while `isWorking && selectedSession`; one firing runs
`setSessionTime(prev => prev + 1)`. -/
def tick (st : State) : State :=
  if st.isWorking ∧ st.selectedSession.isSome then
    { st with sessionTime := st.sessionTime + 1 }
  else st

/-- `n` firings of the interval callback. -/
def ticks : Nat → State → State
  | 0, st => st
  | n + 1, st => ticks n (tick st)

/-- `String.prototype.padStart(targetLength, padString)` for a one-character
pad string. -/
def padStart (s : String) (targetLength : Nat) (padString : Char) : String :=
  String.mk (List.replicate (targetLength - s.length) padString ++ s.data)

/-- `Number.prototype.toString()` of a non-negative integer. -/
def numberToString (n : ℤ) : String := Nat.repr n.toNat

/-- Source: `formatTime` (App.jsx 80-85). -/
def formatTime (seconds : Nat) : String :=
  let hrs := Math.floor (F64.div seconds 3600)
  let mins := Math.floor (F64.div ((seconds % 3600 : Nat) : ℚ) 60)
  let secs : ℤ := ((seconds % 60 : Nat) : ℤ)
  padStart (numberToString hrs) 2 '0' ++ ":" ++ padStart (numberToString mins) 2 '0' ++ ":"
    ++ padStart (numberToString secs) 2 '0'

/-- Source: `getSessionProgress` (App.jsx 87-92). -/
def getSessionProgress (tasks : TaskStore) (sessionKey : SessionKey) : ℤ :=
  let sessionTasks := tasks.list sessionKey
  if sessionTasks.length = 0 then 0
  else
    let completed := (sessionTasks.filter fun t => t.completed).length
    Math.round (F64.mul (F64.div completed sessionTasks.length) 100)

/-! ## SessionView handlers -/

/-- Source: the back button of `SessionView` (App.jsx 266-271). -/
def sessionBackOnClick (st : State) : State :=
  { st with selectedSession := none, currentView := View.home, isWorking := false,
            sessionTime := 0 }

/-- Source: the pause button (App.jsx 295). -/
def pauseOnClick (st : State) : State :=
  { st with isWorking := false }

/-- Source: the start button (App.jsx 318). -/
def startOnClick (st : State) : State :=
  { st with isWorking := true }

/-- Source: the complete button (App.jsx 301-309).  `sessionTime` in the
updater is the value of the render in which the button was clicked. -/
def completeOnClick (st : State) : State :=
  { st with
    isWorking := false
    sessionTime := 0
    weeklyStats :=
      { st.weeklyStats with
        completedSessions := st.weeklyStats.completedSessions + 1
        totalHours := F64.add st.weeklyStats.totalHours (F64.div st.sessionTime 3600) } }

/-- Source: the `+ add` button of the task list (App.jsx 345). -/
def sessionAddOnClick (st : State) : State :=
  { st with currentView := View.addTask }

/-- Source: the `onClick` of the task row `idx` (App.jsx 363-367).  The rows are
the elements of `tasks[selectedSession]`, and `task` is the element the row
was rendered from; `none` stands for a row that does not exist (in the source
the assignment would dereference `undefined`). -/
def taskOnClick (idx : Nat) (st : State) : Option State :=
  match st.selectedSession with
  | none => none
  | some s =>
    match st.tasks.get s with
    | none => none
    | some sessionTasks =>
      match sessionTasks[idx]? with
      | none => none
      | some task =>
        some { st with
          tasks := st.tasks.set s
            (sessionTasks.set idx { task with completed := !task.completed }) }

/-! ## AddTaskView -/

/-- The `useState` cells local to `AddTaskView` (App.jsx 391-392). -/
structure AddTaskLocal where
  newTaskTitle : String
  selectedArea : WorkArea
  deriving DecidableEq, Repr

/-- The initial local state of the form. -/
def AddTaskLocal.init : AddTaskLocal :=
  { newTaskTitle := "", selectedArea := WorkArea.lecture }

/-- White space and line terminators of ECMAScript, the characters that
`String.prototype.trim` strips. -/
def isJsWhiteSpace (c : Char) : Bool :=
  let n := c.toNat
  n == 0x09 || n == 0x0A || n == 0x0B || n == 0x0C || n == 0x0D || n == 0x20 || n == 0xA0
    || n == 0x1680 || (0x2000 ≤ n && n ≤ 0x200A) || n == 0x2028 || n == 0x2029 || n == 0x202F
    || n == 0x205F || n == 0x3000 || n == 0xFEFF

/-- `String.prototype.trim`. -/
def jsTrim (s : String) : String :=
  String.mk ((s.data.dropWhile isJsWhiteSpace).reverse.dropWhile isJsWhiteSpace).reverse

/-- Source: the back button of `AddTaskView` (App.jsx 398). -/
def addTaskBackOnClick (st : State) : State :=
  { st with currentView := if st.selectedSession.isSome then View.session else View.home }

/-- Source: the submit `onClick` of `AddTaskView` (App.jsx 440-455). -/
def submitOnClick (st : State) (loc : AddTaskLocal) : State × AddTaskLocal :=
  if jsTrim loc.newTaskTitle ≠ "" then
    match st.selectedSession with
    | some s =>
      let current : List Task :=
        match st.tasks.get s with
        | none => []
        | some l => l
      ({ st with
          tasks := st.tasks.set s
            (current ++ [{ title := loc.newTaskTitle, area := loc.selectedArea,
                           completed := false }])
          currentView := View.session },
       { loc with newTaskTitle := "" })
    | none => (st, loc)
  else (st, loc)

/-- A click on the submit button: the button carries
`disabled={!newTaskTitle.trim()}` (App.jsx 456), and a disabled button does not
run its handler. -/
def submitButtonClick (st : State) (loc : AddTaskLocal) : State × AddTaskLocal :=
  if jsTrim loc.newTaskTitle = "" then (st, loc) else submitOnClick st loc

/-- Reference definition of the add-task operation, following the
specification's words rather than the source: a title that is empty or
white-space only is a no-op; otherwise one task `{title, area, completed:
false}` is appended to the list of the selected session `s`, the input field
is cleared and the view becomes `session`. -/
def submitTaskReference (st : State) (s : SessionKey) (t : String) (a : WorkArea) :
    State × AddTaskLocal :=
  if t.data.all isJsWhiteSpace then (st, { newTaskTitle := t, selectedArea := a })
  else
    ({ st with
        tasks := st.tasks.set s
          (st.tasks.list s ++ [{ title := t, area := a, completed := false }])
        currentView := View.session },
     { newTaskTitle := "", selectedArea := a })

/-! ## Commands -/

/-- Source: the close button of `ProjectsView` and of `StatsView`
(App.jsx 471, 520). -/
def closeOnClick (st : State) : State :=
  { st with currentView := View.home }

/-- The events the component reacts to: a click on an element of the screen
that is currently rendered, or a firing of the interval callback.  `submit`
carries the title and the area held by the form when the button is clicked. -/
inductive Command where
  | cardClick (key : SessionKey)
  | addTaskButton (key : SessionKey)
  | openProjects
  | openStats
  | sessionBack
  | start
  | pause
  | complete
  | sessionAdd
  | toggle (idx : Nat)
  | addTaskBack
  | submit (title : String) (area : WorkArea)
  | close
  | tick
  deriving DecidableEq, Repr

/-- One event.  `date` is the value of `new Date()` in the render that is on
screen.  A click is possible only on an element of the screen returned by the
render dispatch, and inside `SessionView` only on the buttons of the branch
that is rendered (pause and complete while working, start otherwise, a task
row that exists); `none` means the element is not there to be clicked. -/
def step (date : JsDate) (cmd : Command) (st : State) : Option State :=
  match cmd with
  | Command.tick => some (tick st)
  | Command.cardClick key =>
    if renderDispatch st = Screen.HomeView then HomeView.onClick date st (HomeClick.card key)
    else none
  | Command.addTaskButton key =>
    if renderDispatch st = Screen.HomeView then
      HomeView.onClick date st (HomeClick.addTaskButton key)
    else none
  | Command.openProjects =>
    if renderDispatch st = Screen.HomeView then HomeView.onClick date st HomeClick.projects
    else none
  | Command.openStats =>
    if renderDispatch st = Screen.HomeView then HomeView.onClick date st HomeClick.stats
    else none
  | Command.sessionBack =>
    if renderDispatch st = Screen.SessionView then some (sessionBackOnClick st) else none
  | Command.start =>
    if renderDispatch st = Screen.SessionView ∧ st.isWorking = false then
      some (startOnClick st)
    else none
  | Command.pause =>
    if renderDispatch st = Screen.SessionView ∧ st.isWorking = true then
      some (pauseOnClick st)
    else none
  | Command.complete =>
    if renderDispatch st = Screen.SessionView ∧ st.isWorking = true then
      some (completeOnClick st)
    else none
  | Command.sessionAdd =>
    if renderDispatch st = Screen.SessionView then some (sessionAddOnClick st) else none
  | Command.toggle idx =>
    if renderDispatch st = Screen.SessionView then taskOnClick idx st else none
  | Command.addTaskBack =>
    if renderDispatch st = Screen.AddTaskView then some (addTaskBackOnClick st) else none
  | Command.submit title area =>
    if renderDispatch st = Screen.AddTaskView then
      some (submitButtonClick st { newTaskTitle := title, selectedArea := area }).1
    else none
  | Command.close =>
    if renderDispatch st = Screen.ProjectsView ∨ renderDispatch st = Screen.StatsView then
      some (closeOnClick st)
    else none

/-- A finite sequence of events, each with the date of its render; `none` as
soon as one of them is not possible. -/
def run : List (JsDate × Command) → State → Option State
  | [], st => some st
  | (date, cmd) :: rest, st =>
    match step date cmd st with
    | none => none
    | some st' => run rest st'

/-- The navigation invariant: a selected session whenever `currentView` is
`session` or `addTask`. -/
def selectionInvariant (st : State) : Prop :=
  (st.currentView = View.session → st.selectedSession.isSome = true) ∧
  (st.currentView = View.addTask → st.selectedSession.isSome = true)

/-- The session `s` has a task and is not the one of the session or add-task
view. -/
def shutOut (s : SessionKey) (st : State) : Prop :=
  st.tasks.list s ≠ [] ∧
  ((st.currentView = View.session ∨ st.currentView = View.addTask) →
    st.selectedSession ≠ some s)

/-! ## Theorems -/

/-! ### Availability and the selectable sessions -/

/-- C1: with `month = getMonth() + 1` in 1..12 and `weekday = getDay()` in 0..6,
`getSessionAvailability` reports all three sessions open when `month ≤ 2` or
`month ≥ 7`; for `month` in 3..6 it reports the afternoon closed on Thursday
(weekday 4), midday and afternoon closed on Friday (weekday 5), and all three
open on every other weekday. -/
theorem getSessionAvailability_spec (date : JsDate) :
    (1 ≤ date.getMonth.val + 1 ∧ date.getMonth.val + 1 ≤ 12 ∧ date.getDay.val ≤ 6) ∧
    ((date.getMonth.val + 1 ≤ 2 ∨ 7 ≤ date.getMonth.val + 1) →
      getSessionAvailability date = { morning := true, midday := true, afternoon := true }) ∧
    ((3 ≤ date.getMonth.val + 1 ∧ date.getMonth.val + 1 ≤ 6) →
      (date.getDay.val = 4 →
        getSessionAvailability date = { morning := true, midday := true, afternoon := false }) ∧
      (date.getDay.val = 5 →
        getSessionAvailability date = { morning := true, midday := false, afternoon := false }) ∧
      (date.getDay.val ≠ 4 → date.getDay.val ≠ 5 →
        getSessionAvailability date = { morning := true, midday := true, afternoon := true })) := by
  obtain ⟨m, d⟩ := date
  dsimp only [getSessionAvailability]
  refine ⟨⟨by omega, by omega, by omega⟩, ?_, ?_⟩
  · intro h
    split_ifs <;> first | rfl | omega
  · intro h
    refine ⟨fun h4 => ?_, fun h5 => ?_, fun h4 h5 => ?_⟩ <;>
      split_ifs <;> first | rfl | omega

/-- Instance of C1 at a Thursday in April and at a Friday in March. -/
theorem getSessionAvailability_spec_witness :
    getSessionAvailability ⟨3, 4⟩ = { morning := true, midday := true, afternoon := false } ∧
    getSessionAvailability ⟨2, 5⟩ = { morning := true, midday := false, afternoon := false } :=
  ⟨((getSessionAvailability_spec ⟨3, 4⟩).2.2 (by decide)).1 (by decide),
   ((getSessionAvailability_spec ⟨2, 5⟩).2.2 (by decide)).2.1 (by decide)⟩

/-- Membership in the rendered cards, by cases on the date and the key. -/
theorem mem_availableSessions (date : JsDate) (k : SessionKey) :
    k ∈ (availableSessions date).map Prod.fst ↔
      ((getSessionAvailability date).get k = true ∧
        ¬ (isWeekend date = true ∧ k = SessionKey.afternoon)) := by
  obtain ⟨m, d⟩ := date
  cases k <;> revert m d <;> decide

/-- C2: `isWeekend` is true exactly on weekday 0 and 6; the session cards built
by `HomeView` are, in the order morning, midday, afternoon, exactly the sessions
that `getSessionAvailability` reports open, minus the afternoon on a weekend;
so the afternoon is never a card on a weekend, a session blocked by teaching is
never a card, and a click in `HomeView` either leaves `selectedSession` alone
or sets it to a session that is open and not a weekend afternoon. -/
theorem availableSessions_spec (date : JsDate) :
    (isWeekend date = true ↔ (date.getDay.val = 0 ∨ date.getDay.val = 6)) ∧
    (∀ k : SessionKey, k ∈ (availableSessions date).map Prod.fst ↔
      ((getSessionAvailability date).get k = true ∧
        ¬ (isWeekend date = true ∧ k = SessionKey.afternoon))) ∧
    ((availableSessions date).map Prod.fst).Sublist
      [SessionKey.morning, SessionKey.midday, SessionKey.afternoon] ∧
    (isWeekend date = true → SessionKey.afternoon ∉ (availableSessions date).map Prod.fst) ∧
    (∀ k : SessionKey, (getSessionAvailability date).get k = false →
      k ∉ (availableSessions date).map Prod.fst) ∧
    (∀ (st st' : State) (click : HomeClick), HomeView.onClick date st click = some st' →
      st'.selectedSession = st.selectedSession ∨
      ∃ k : SessionKey, st'.selectedSession = some k ∧
        (getSessionAvailability date).get k = true ∧
        ¬ (isWeekend date = true ∧ k = SessionKey.afternoon)) := by
  refine ⟨?_, mem_availableSessions date, ?_, ?_, ?_, ?_⟩
  · simp [isWeekend]
  · have h : (availableSessions date).Sublist SESSIONS := List.filter_sublist _
    simpa [SESSIONS] using h.map Prod.fst
  · intro hw hmem
    exact ((mem_availableSessions date _).1 hmem).2 ⟨hw, rfl⟩
  · intro k hk hmem
    rw [((mem_availableSessions date k).1 hmem).1] at hk
    exact Bool.noConfusion hk
  · intro st st' click h
    cases click with
    | card key =>
      simp only [HomeView.onClick] at h
      split_ifs at h with hmem
      have hk := (mem_availableSessions date key).1 hmem
      injection h with h
      subst h
      right
      refine ⟨key, ?_, hk.1, hk.2⟩
      simp [cardOnClick, hk.1]
    | addTaskButton key =>
      simp only [HomeView.onClick] at h
      split_ifs at h with hmem
      have hk := (mem_availableSessions date key).1 hmem.1
      injection h with h
      subst h
      exact Or.inr ⟨key, rfl, hk.1, hk.2⟩
    | projects =>
      simp only [HomeView.onClick, Option.some.injEq] at h
      subst h
      exact Or.inl rfl
    | stats =>
      simp only [HomeView.onClick, Option.some.injEq] at h
      subst h
      exact Or.inl rfl

/-- Instance of C2 on a Saturday in January: the afternoon card is absent. -/
theorem availableSessions_spec_witness :
    isWeekend ⟨0, 6⟩ = true ∧
    SessionKey.afternoon ∉ (availableSessions ⟨0, 6⟩).map Prod.fst :=
  ⟨by decide, (availableSessions_spec ⟨0, 6⟩).2.2.2.1 (by decide)⟩

/-- The card handler never touches `currentView`. -/
theorem cardOnClick_currentView (date : JsDate) (key : SessionKey) (st : State) :
    (cardOnClick date key st).currentView = st.currentView := by
  dsimp only [cardOnClick]
  split_ifs <;> rfl

/-- C3: on a Monday in January, in the initial state (view home), a click on
the open morning card yields `selectedSession = morning` but leaves
`currentView = home`, and the render dispatch still returns the home screen,
not the session detail screen. -/
theorem card_click_stays_home :
    HomeView.onClick ⟨0, 1⟩ State.init (HomeClick.card SessionKey.morning)
      = some { State.init with selectedSession := some SessionKey.morning } ∧
    SessionKey.morning ∈ (availableSessions ⟨0, 1⟩).map Prod.fst ∧
    (cardOnClick ⟨0, 1⟩ SessionKey.morning State.init).selectedSession
      = some SessionKey.morning ∧
    (cardOnClick ⟨0, 1⟩ SessionKey.morning State.init).currentView = View.home ∧
    renderDispatch (cardOnClick ⟨0, 1⟩ SessionKey.morning State.init) = Screen.HomeView := by
  refine ⟨?_, by decide, by decide, by decide, by decide⟩
  decide

/-! ### The task store -/

theorem TaskStore.get_set_same (t : TaskStore) (k : SessionKey) (v : List Task) :
    (t.set k v).get k = some v := by
  cases k <;> rfl

theorem TaskStore.get_set_ne (t : TaskStore) (k k' : SessionKey) (v : List Task)
    (h : k' ≠ k) : (t.set k v).get k' = t.get k' := by
  cases k <;> cases k' <;> first | rfl | exact absurd rfl h

theorem TaskStore.list_set_same (t : TaskStore) (k : SessionKey) (v : List Task) :
    (t.set k v).list k = v := by
  simp [TaskStore.list, TaskStore.get_set_same]

theorem TaskStore.set_set (t : TaskStore) (k : SessionKey) (v w : List Task) :
    (t.set k v).set k w = t.set k w := by
  cases k <;> rfl

theorem TaskStore.set_get (t : TaskStore) (k : SessionKey) (v : List Task)
    (h : t.get k = some v) : t.set k v = t := by
  cases t
  cases k <;> simp_all [TaskStore.get, TaskStore.set]

/-- A list with no element left after `dropWhile p` consists of `p` elements. -/
theorem dropWhile_all_iff {α : Type} (p : α → Bool) (l : List α) :
    (∀ x ∈ l.dropWhile p, p x = true) ↔ ∀ x ∈ l, p x = true := by
  induction l with
  | nil => simp
  | cons a l ih =>
    by_cases ha : p a = true
    · simp [List.dropWhile_cons, ha, ih]
    · simp [List.dropWhile_cons, ha]

/-- The trimmed string is empty exactly for a string of white space only. -/
theorem jsTrim_eq_empty_iff (t : String) :
    jsTrim t = "" ↔ ∀ c ∈ t.data, isJsWhiteSpace c = true := by
  have h : jsTrim t = "" ↔
      ((t.data.dropWhile isJsWhiteSpace).reverse.dropWhile isJsWhiteSpace).reverse = [] := by
    unfold jsTrim
    constructor
    · intro h
      exact congrArg String.data h
    · intro h
      rw [h]
  rw [h, List.reverse_eq_nil_iff, List.dropWhile_eq_nil_iff]
  simp only [List.mem_reverse]
  exact dropWhile_all_iff _ _

/-- C4: with a selected session `s`, a title `t` and an area `a`, the submit
handler equals the reference definition `submitTaskReference`: if `t.trim()`
is empty (which happens exactly when every character of `t` is white space)
the submit handler, and a click on the submit button, change nothing at all;
otherwise the list of `s` becomes the old list followed by the one task
`{title: t, area: a, completed: false}`, the entry of every other session is
unchanged, the view becomes `session`, the other cells keep their value and
the input field is cleared. -/
theorem submitOnClick_spec (st : State) (s : SessionKey) (t : String) (a : WorkArea)
    (hs : st.selectedSession = some s) :
    submitOnClick st ⟨t, a⟩ = submitTaskReference st s t a ∧
    (jsTrim t = "" ↔ ∀ c ∈ t.data, isJsWhiteSpace c = true) ∧
    (jsTrim t = "" →
      submitOnClick st ⟨t, a⟩ = (st, ⟨t, a⟩) ∧ submitButtonClick st ⟨t, a⟩ = (st, ⟨t, a⟩)) ∧
    (jsTrim t ≠ "" →
      (submitOnClick st ⟨t, a⟩).1.tasks.list s
        = st.tasks.list s ++ [{ title := t, area := a, completed := false }] ∧
      (∀ k : SessionKey, k ≠ s →
        (submitOnClick st ⟨t, a⟩).1.tasks.get k = st.tasks.get k) ∧
      (submitOnClick st ⟨t, a⟩).1.currentView = View.session ∧
      (submitOnClick st ⟨t, a⟩).1.selectedSession = some s ∧
      (submitOnClick st ⟨t, a⟩).1.sessionTime = st.sessionTime ∧
      (submitOnClick st ⟨t, a⟩).1.isWorking = st.isWorking ∧
      (submitOnClick st ⟨t, a⟩).1.weeklyStats = st.weeklyStats ∧
      (submitOnClick st ⟨t, a⟩).2 = ⟨"", a⟩ ∧
      submitButtonClick st ⟨t, a⟩ = submitOnClick st ⟨t, a⟩) := by
  have hlist : (match st.tasks.get s with
      | none => []
      | some l => l) = st.tasks.list s := by
    unfold TaskStore.list
    cases st.tasks.get s <;> rfl
  refine ⟨?_, jsTrim_eq_empty_iff t, ?_, ?_⟩
  · by_cases h : jsTrim t = ""
    · have hall : t.data.all isJsWhiteSpace = true := by
        rw [List.all_eq_true]
        exact (jsTrim_eq_empty_iff t).1 h
      simp [submitOnClick, submitTaskReference, h, hall]
    · have hall : ¬ (t.data.all isJsWhiteSpace = true) := by
        rw [List.all_eq_true]
        exact fun hc => h ((jsTrim_eq_empty_iff t).2 hc)
      simp only [submitOnClick, submitTaskReference, h, hs, hall, ne_eq, not_false_eq_true,
        if_true, if_false, hlist]
      rfl
  · intro h
    simp [submitOnClick, submitButtonClick, h]
  · intro h
    simp only [submitOnClick, submitButtonClick, h, hs, ne_eq, not_false_eq_true, if_true,
      if_false, hlist]
    refine ⟨TaskStore.list_set_same _ _ _, fun k hk => TaskStore.get_set_ne _ _ _ _ hk, ?_⟩
    simp

/-- Instance of C4: a white-space title changes nothing, and `"read"` is
appended to the morning list of the initial store. -/
theorem submitOnClick_spec_witness :
    submitOnClick { State.init with selectedSession := some SessionKey.morning }
        ⟨" \t", WorkArea.paper⟩
      = ({ State.init with selectedSession := some SessionKey.morning },
          ⟨" \t", WorkArea.paper⟩) ∧
    (submitOnClick { State.init with selectedSession := some SessionKey.morning }
        ⟨"read", WorkArea.paper⟩).1.tasks.list SessionKey.morning
      = [] ++ [{ title := "read", area := WorkArea.paper, completed := false }] :=
  ⟨((submitOnClick_spec { State.init with selectedSession := some SessionKey.morning }
      SessionKey.morning " \t" WorkArea.paper rfl).2.2.1 (by decide)).1,
   ((submitOnClick_spec { State.init with selectedSession := some SessionKey.morning }
      SessionKey.morning "read" WorkArea.paper rfl).2.2.2 (by decide)).1⟩

/-- Writing back the element already stored at an index changes nothing. -/
theorem set_getElem_eq {α : Type} (l : List α) (i : Nat) (h : i < l.length) :
    l.set i l[i] = l := by
  apply List.ext_getElem?
  intro j
  by_cases hj : i = j
  · subst hj
    simp [h]
  · simp [List.getElem?_set, hj]

/-- The toggle handler at a row that exists, written out. -/
theorem taskOnClick_eq (st : State) (s : SessionKey) (l : List Task) (i : Nat) (task : Task)
    (hs : st.selectedSession = some s) (hl : st.tasks.get s = some l)
    (hi : l[i]? = some task) :
    taskOnClick i st = some { st with
      tasks := st.tasks.set s (l.set i { task with completed := !task.completed }) } := by
  simp [taskOnClick, hs, hl, hi]

/-- Toggling the same row twice gives the state back. -/
theorem taskOnClick_involutive (st st' : State) (i : Nat) (h : taskOnClick i st = some st') :
    taskOnClick i st' = some st := by
  unfold taskOnClick at h
  split at h
  · exact Option.noConfusion h
  · rename_i s hs
    split at h
    · exact Option.noConfusion h
    · rename_i l hl
      split at h
      · exact Option.noConfusion h
      · rename_i task hi
        injection h with h
        subst h
        have hlt : i < l.length := by
          rcases Nat.lt_or_ge i l.length with hlt | hge
          · exact hlt
          · rw [List.getElem?_eq_none hge] at hi
            exact Option.noConfusion hi
        rw [taskOnClick_eq
          { st with tasks := st.tasks.set s (l.set i { task with completed := !task.completed }) }
          s (l.set i { task with completed := !task.completed }) i
          { task with completed := !task.completed } hs (TaskStore.get_set_same _ _ _)
          (by simp [List.getElem?_set, hlt])]
        have hback : (l.set i { task with completed := !task.completed }).set i
            { title := task.title, area := task.area, completed := !(!task.completed) } = l := by
          rw [List.set_set, Bool.not_not]
          have hget : l[i] = task := by
            rw [List.getElem?_eq_getElem hlt] at hi
            exact Option.some.inj hi
          rw [← hget]
          exact set_getElem_eq l i hlt
        simp only [TaskStore.set_set, hback, TaskStore.set_get _ _ _ hl]

/-- C5: for a selected session `s` and an index `i` inside the list of `s`, the
toggle handler returns a state in which the list of `s` has the same length,
task `i` has `completed` negated with title and area unchanged, every other
index holds the task it held before, the entries of all other sessions are
unchanged, and the view, the selection, the timer and the weekly stats keep
their value. -/
theorem taskOnClick_spec (st : State) (s : SessionKey) (i : Nat)
    (hs : st.selectedSession = some s) (hi : i < (st.tasks.list s).length) :
    ∃ st' : State, taskOnClick i st = some st' ∧
      (st'.tasks.list s).length = (st.tasks.list s).length ∧
      (∃ old new : Task, (st.tasks.list s)[i]? = some old ∧ (st'.tasks.list s)[i]? = some new ∧
        new.completed = !old.completed ∧ new.title = old.title ∧ new.area = old.area) ∧
      (∀ j : Nat, j ≠ i → (st'.tasks.list s)[j]? = (st.tasks.list s)[j]?) ∧
      (∀ k : SessionKey, k ≠ s → st'.tasks.get k = st.tasks.get k) ∧
      st'.currentView = st.currentView ∧ st'.selectedSession = st.selectedSession ∧
      st'.sessionTime = st.sessionTime ∧ st'.isWorking = st.isWorking ∧
      st'.weeklyStats = st.weeklyStats := by
  cases hl : st.tasks.get s with
  | none => simp [TaskStore.list, hl] at hi
  | some l =>
    have hlist : st.tasks.list s = l := by simp [TaskStore.list, hl]
    rw [hlist] at hi ⊢
    have hget : l[i]? = some l[i] := List.getElem?_eq_getElem hi
    refine ⟨_, taskOnClick_eq st s l i l[i] hs hl hget, ?_⟩
    refine ⟨?_, ⟨l[i], { l[i] with completed := !l[i].completed }, hget, ?_, rfl, rfl, rfl⟩, ?_,
      fun k hk => TaskStore.get_set_ne _ _ _ _ hk, rfl, rfl, rfl, rfl, rfl⟩
    · simp [TaskStore.list_set_same]
    · simp [TaskStore.list_set_same, List.getElem?_set, hi]
    · intro j hj
      simp [TaskStore.list_set_same, List.getElem?_set, Ne.symm hj]

/-- Instance of C5: toggling the second of two morning tasks. -/
theorem taskOnClick_spec_witness :
    ∃ st' : State,
      taskOnClick 1 { State.init with
        selectedSession := some SessionKey.morning
        tasks := { State.init.tasks with
          morning := some [⟨"a", WorkArea.book, false⟩, ⟨"b", WorkArea.paper, true⟩] } }
        = some st' ∧
      (st'.tasks.list SessionKey.morning).length = 2 := by
  obtain ⟨st', h, hlen, _⟩ := taskOnClick_spec
    { State.init with
      selectedSession := some SessionKey.morning
      tasks := { State.init.tasks with
        morning := some [⟨"a", WorkArea.book, false⟩, ⟨"b", WorkArea.paper, true⟩] } }
    SessionKey.morning 1 rfl (by decide)
  exact ⟨st', h, hlen⟩

/-- C10: with a selected session `s` whose list has length `n` and a title with
non-empty trim, the task at index `n` after the submit has `completed = false`;
one toggle of index `n` makes it true, and a second toggle makes it false again
and gives back the whole state, hence the whole task store, that the submit
produced. -/
theorem submit_toggle_roundtrip (st : State) (s : SessionKey) (t : String) (a : WorkArea)
    (hs : st.selectedSession = some s) (ht : jsTrim t ≠ "") :
    ((submitOnClick st ⟨t, a⟩).1.tasks.list s)[(st.tasks.list s).length]?
      = some { title := t, area := a, completed := false } ∧
    ∃ st2 st3 : State,
      taskOnClick (st.tasks.list s).length (submitOnClick st ⟨t, a⟩).1 = some st2 ∧
      (st2.tasks.list s)[(st.tasks.list s).length]?
        = some { title := t, area := a, completed := true } ∧
      taskOnClick (st.tasks.list s).length st2 = some st3 ∧
      (st3.tasks.list s)[(st.tasks.list s).length]?
        = some { title := t, area := a, completed := false } ∧
      st3.tasks = (submitOnClick st ⟨t, a⟩).1.tasks ∧
      st3 = (submitOnClick st ⟨t, a⟩).1 := by
  have hlist : (match st.tasks.get s with
      | none => []
      | some l => l) = st.tasks.list s := by
    unfold TaskStore.list
    cases st.tasks.get s <;> rfl
  have hsub : (submitOnClick st ⟨t, a⟩).1 = { st with
      tasks := st.tasks.set s
        (st.tasks.list s ++ [{ title := t, area := a, completed := false }])
      currentView := View.session } := by
    simp only [submitOnClick, ht, hs, ne_eq, not_false_eq_true, if_true, hlist]
  have hnew : (st.tasks.list s ++ [({ title := t, area := a, completed := false } : Task)])[
      (st.tasks.list s).length]? = some { title := t, area := a, completed := false } := by
    simp
  have h1 := taskOnClick_eq (submitOnClick st ⟨t, a⟩).1 s _ (st.tasks.list s).length _
    (by rw [hsub]; exact hs) (by rw [hsub]; exact TaskStore.get_set_same _ _ _) hnew
  have h2 := taskOnClick_involutive _ _ _ h1
  refine ⟨by rw [hsub]; simp [TaskStore.list_set_same], _, _, h1, ?_, h2, ?_, rfl, rfl⟩
  · simp [TaskStore.list_set_same]
  · rw [hsub]
    simp [TaskStore.list_set_same]

/-- Instance of C10 on the initial store with the morning session selected. -/
theorem submit_toggle_roundtrip_witness :
    ((submitOnClick { State.init with selectedSession := some SessionKey.morning }
        ⟨"read", WorkArea.paper⟩).1.tasks.list SessionKey.morning)[
        (({ State.init with selectedSession := some SessionKey.morning } : State).tasks.list
          SessionKey.morning).length]?
      = some { title := "read", area := WorkArea.paper, completed := false } :=
  (submit_toggle_roundtrip { State.init with selectedSession := some SessionKey.morning }
    SessionKey.morning "read" WorkArea.paper rfl (by decide)).1

/-! ### The timer -/

/-- While the timer runs with a session selected, `n` ticks add `n` seconds. -/
theorem ticks_running (n : Nat) (st : State) (hw : st.isWorking = true)
    (hsel : st.selectedSession.isSome = true) :
    ticks n st = { st with sessionTime := st.sessionTime + n } := by
  induction n generalizing st with
  | zero => rfl
  | succ n ih =>
    have ht : tick st = { st with sessionTime := st.sessionTime + 1 } := by
      simp [tick, hw, hsel]
    show ticks n (tick st) = _
    rw [ht, ih { st with sessionTime := st.sessionTime + 1 } hw hsel]
    simp only [Nat.add_assoc, Nat.add_comm 1 n]

/-- While the timer is paused, ticks change nothing. -/
theorem ticks_paused (n : Nat) (st : State) (hw : st.isWorking = false) :
    ticks n st = st := by
  induction n with
  | zero => rfl
  | succ n ih =>
    have ht : tick st = st := by simp [tick, hw]
    show ticks n (tick st) = _
    rw [ht, ih]

/-- C7: in a state shown as the session screen with `isWorking = false` and
elapsed `e`, the sequence start, `N` ticks, pause gives elapsed `e + N` with
`isWorking = false`; continuing with `G` ticks while paused, start, `M` ticks,
pause gives elapsed `e + N + M` with `isWorking = false`.  Each click is on the
button that is rendered at that point (start while not working, where it
switches the flag, pause while working), and the session screen stays up
throughout. -/
theorem timer_spec (st : State) (e N G M : Nat)
    (hv : renderDispatch st = Screen.SessionView) (hw : st.isWorking = false)
    (he : st.sessionTime = e) :
    (startOnClick st).isWorking ≠ st.isWorking ∧
    (ticks N (startOnClick st)).isWorking = true ∧
    (pauseOnClick (ticks N (startOnClick st))).sessionTime = e + N ∧
    (pauseOnClick (ticks N (startOnClick st))).isWorking = false ∧
    (ticks G (pauseOnClick (ticks N (startOnClick st)))).sessionTime = e + N ∧
    (ticks G (pauseOnClick (ticks N (startOnClick st)))).isWorking = false ∧
    (ticks M (startOnClick (ticks G (pauseOnClick (ticks N (startOnClick st)))))).isWorking
      = true ∧
    (pauseOnClick (ticks M (startOnClick
      (ticks G (pauseOnClick (ticks N (startOnClick st))))))).sessionTime = e + N + M ∧
    (pauseOnClick (ticks M (startOnClick
      (ticks G (pauseOnClick (ticks N (startOnClick st))))))).isWorking = false ∧
    renderDispatch (pauseOnClick (ticks M (startOnClick
      (ticks G (pauseOnClick (ticks N (startOnClick st))))))) = Screen.SessionView := by
  have hsel : st.selectedSession.isSome = true := by
    by_contra hn
    rw [renderDispatch, if_neg (fun h => hn h.2)] at hv
    split_ifs at hv
  have hcv : st.currentView = View.session := by
    by_contra hn
    rw [renderDispatch, if_neg (fun h => hn h.1)] at hv
    split_ifs at hv
  have h1 : ticks N (startOnClick st)
      = { startOnClick st with sessionTime := (startOnClick st).sessionTime + N } :=
    ticks_running N _ rfl hsel
  have h2 : ticks G (pauseOnClick (ticks N (startOnClick st)))
      = pauseOnClick (ticks N (startOnClick st)) := ticks_paused G _ rfl
  have h3 : ticks M (startOnClick (pauseOnClick (ticks N (startOnClick st))))
      = { startOnClick (pauseOnClick (ticks N (startOnClick st))) with
          sessionTime := (startOnClick (pauseOnClick (ticks N (startOnClick st)))).sessionTime
            + M } :=
    ticks_running M _ rfl (by rw [h1]; exact hsel)
  refine ⟨by rw [hw]; simp [startOnClick], ?_⟩
  rw [h2, h3, h1]
  simp [startOnClick, pauseOnClick, he, renderDispatch, hcv, hsel]

/-- Instance of C7: from the session screen with 7 seconds elapsed, 5 running
ticks, 3 paused ticks and 2 running ticks give 14 seconds. -/
theorem timer_spec_witness :
    (pauseOnClick (ticks 2 (startOnClick (ticks 3 (pauseOnClick (ticks 5 (startOnClick
      { State.init with
        currentView := View.session
        selectedSession := some SessionKey.midday
        sessionTime := 7 }))))))).sessionTime = 7 + 5 + 2 :=
  (timer_spec
    { State.init with
      currentView := View.session
      selectedSession := some SessionKey.midday
      sessionTime := 7 } 7 5 3 2 (by decide) rfl rfl).2.2.2.2.2.2.2.1

/-! ### Double arithmetic -/

namespace F64

theorem abs_roundHalfEven_sub_le (x : ℚ) : |(roundHalfEven x : ℚ) - x| ≤ 1 / 2 := by
  have h0 := Int.floor_le x
  have h1 := Int.lt_floor_add_one x
  unfold roundHalfEven
  dsimp only
  split_ifs <;> rw [abs_le] <;> constructor <;> push_cast <;> linarith

theorem roundHalfEven_eq_of_near (x : ℚ) (m : ℤ) (h : |x - m| < 1 / 2) :
    roundHalfEven x = m := by
  have h1 := abs_roundHalfEven_sub_le x
  have h2 : |((roundHalfEven x - m : ℤ) : ℚ)| < 1 := by
    push_cast
    calc |(roundHalfEven x : ℚ) - m| = |((roundHalfEven x : ℚ) - x) + (x - m)| := by ring_nf
      _ ≤ |(roundHalfEven x : ℚ) - x| + |x - m| := abs_add _ _
      _ < 1 := by linarith
  have h3 : |roundHalfEven x - m| < 1 := by exact_mod_cast h2
  have := Int.abs_lt_one_iff.1 h3
  omega

theorem roundHalfEven_intCast (m : ℤ) : roundHalfEven (m : ℚ) = m :=
  roundHalfEven_eq_of_near _ m (by simp)

theorem log_eq_of_binade (x : ℚ) (e : ℤ) (h1 : (2 : ℚ) ^ e ≤ x) (h2 : x < (2 : ℚ) ^ (e + 1)) :
    Int.log 2 x = e := by
  have hx : 0 < x := lt_of_lt_of_le (by positivity) h1
  have a : e ≤ Int.log 2 x := (Int.zpow_le_iff_le_log (by norm_num) hx).1 (by simpa using h1)
  have b : Int.log 2 x < e + 1 := (Int.lt_zpow_iff_log_lt (by norm_num) hx).1 (by simpa using h2)
  omega

theorem quantum_of_binade (x : ℚ) (e : ℤ) (h1 : (2 : ℚ) ^ e ≤ x) (h2 : x < (2 : ℚ) ^ (e + 1))
    (he : -1022 ≤ e) : quantum x = e - 52 := by
  have hx : 0 < x := lt_of_lt_of_le (by positivity) h1
  unfold quantum
  rw [abs_of_pos hx, log_eq_of_binade x e h1 h2]
  omega

theorem round_of_binade (x : ℚ) (e : ℤ) (h1 : (2 : ℚ) ^ e ≤ x) (h2 : x < (2 : ℚ) ^ (e + 1))
    (he : -1022 ≤ e) :
    round x = (roundHalfEven (x / 2 ^ (e - 52)) : ℚ) * 2 ^ (e - 52) := by
  have hx : 0 < x := lt_of_lt_of_le (by positivity) h1
  unfold round
  rw [if_neg hx.ne', quantum_of_binade x e h1 h2 he]

theorem abs_round_sub_le (x : ℚ) (hx : (2 : ℚ) ^ (-1022 : ℤ) ≤ x) :
    |round x - x| ≤ x * 2 ^ (-53 : ℤ) := by
  have hpos : 0 < x := lt_of_lt_of_le (by positivity) hx
  have h1 : (2 : ℚ) ^ Int.log 2 x ≤ x := by
    simpa using @Int.zpow_log_le_self ℚ _ _ 2 x (by norm_num) hpos
  have h2 : x < (2 : ℚ) ^ (Int.log 2 x + 1) := by
    simpa using @Int.lt_zpow_succ_log_self ℚ _ _ 2 (by norm_num) x
  have h3 : -1022 ≤ Int.log 2 x :=
    (Int.zpow_le_iff_le_log (by norm_num) hpos).1 (by simpa using hx)
  rw [round_of_binade x _ h1 h2 h3]
  have hu : (0 : ℚ) < 2 ^ (Int.log 2 x - 52) := by positivity
  have hr := abs_roundHalfEven_sub_le (x / 2 ^ (Int.log 2 x - 52))
  have e1 : (roundHalfEven (x / 2 ^ (Int.log 2 x - 52)) : ℚ) * 2 ^ (Int.log 2 x - 52) - x
      = ((roundHalfEven (x / 2 ^ (Int.log 2 x - 52)) : ℚ) - x / 2 ^ (Int.log 2 x - 52))
        * 2 ^ (Int.log 2 x - 52) := by
    field_simp
  have e2 : (1 / 2 : ℚ) * 2 ^ (Int.log 2 x - 52) = 2 ^ Int.log 2 x * 2 ^ (-53 : ℤ) := by
    rw [show Int.log 2 x - 52 = Int.log 2 x + (-52) by ring, zpow_add₀ (by norm_num)]
    norm_num
    ring
  rw [e1, abs_mul, abs_of_pos hu]
  calc |(roundHalfEven (x / 2 ^ (Int.log 2 x - 52)) : ℚ) - x / 2 ^ (Int.log 2 x - 52)|
        * 2 ^ (Int.log 2 x - 52)
      ≤ 1 / 2 * 2 ^ (Int.log 2 x - 52) := mul_le_mul_of_nonneg_right hr hu.le
    _ = 2 ^ Int.log 2 x * 2 ^ (-53 : ℤ) := e2
    _ ≤ x * 2 ^ (-53 : ℤ) := mul_le_mul_of_nonneg_right h1 (by positivity)

theorem round_zero : round 0 = 0 := by simp [round]

end F64

/-- The double `(c / n) * 100` is within `2 ^ (-44)` of the exact `100 c / n`. -/
theorem mul_div_near (c n : ℕ) (hc : c ≤ n) (hn : 0 < n) (hn32 : n < 2 ^ 32) :
    |F64.mul (F64.div c n) 100 - 100 * c / n| ≤ 2 ^ (-44 : ℤ) := by
  rcases Nat.eq_zero_or_pos c with h0 | hcpos
  · subst h0
    simp [F64.mul, F64.div, F64.round_zero]
    positivity
  have hnq : (0 : ℚ) < n := by exact_mod_cast hn
  have hcq : (1 : ℚ) ≤ c := by exact_mod_cast hcpos
  have hcn : (c : ℚ) ≤ n := by exact_mod_cast hc
  have hn32q : (n : ℚ) < 2 ^ 32 := by exact_mod_cast hn32
  have hx1 : (c : ℚ) / n ≤ 1 := (div_le_one hnq).2 hcn
  have hx0 : (2 : ℚ) ^ (-32 : ℤ) ≤ (c : ℚ) / n := by
    rw [le_div_iff₀ hnq]
    calc (2 : ℚ) ^ (-32 : ℤ) * n ≤ 2 ^ (-32 : ℤ) * 2 ^ 32 :=
        mul_le_mul_of_nonneg_left hn32q.le (by positivity)
      _ = 1 := by norm_num
      _ ≤ c := hcq
  have e1 := F64.abs_round_sub_le ((c : ℚ) / n) (le_trans (by norm_num) hx0)
  have hdiv : F64.round ((c : ℚ) / n) = F64.div c n := rfl
  have hmul : F64.mul (F64.div c n) 100 = F64.round (F64.div c n * 100) := rfl
  have hexact : (100 : ℚ) * c / n = (c : ℚ) / n * 100 := by ring
  have h32 : (2 : ℚ) ^ (-32 : ℤ) = 1 / 4294967296 := by norm_num
  have h53 : (2 : ℚ) ^ (-53 : ℤ) = 1 / 9007199254740992 := by norm_num
  have h44 : (2 : ℚ) ^ (-44 : ℤ) = 1 / 17592186044416 := by norm_num
  rw [hdiv, h53, abs_le] at e1
  rw [h32] at hx0
  have hd_lo : (2 : ℚ) ^ (-1022 : ℤ) ≤ F64.div c n * 100 := by
    have h : (2 : ℚ) ^ (-1022 : ℤ) ≤ 1 / 8589934592 := by norm_num
    refine le_trans h ?_
    linarith [e1.1]
  have e2 := F64.abs_round_sub_le (F64.div c n * 100) hd_lo
  rw [h53, abs_le] at e2
  rw [hmul, hexact, h44, abs_le]
  constructor <;> linarith [e1.1, e1.2, e2.1, e2.2]


/-- Two rationals closer than `2 ^ (-44)`, the first with denominator `2 n`
below `2 ^ 33`, have the same floor unless the first is an integer, where the
floor of the second may be one less. -/
theorem floor_near (y y' : ℚ) (t : ℤ) (n : ℕ) (hn : 0 < n) (hn32 : n < 2 ^ 32)
    (hy : y = t / (2 * n)) (hlo : -(1 / 17592186044416) ≤ y' - y)
    (hhi : y' - y ≤ 1 / 17592186044416) :
    ⌊y'⌋ = ⌊y⌋ ∨ (y = ⌊y⌋ ∧ ⌊y'⌋ = ⌊y⌋ - 1) := by
  have hnq : (0 : ℚ) < n := by exact_mod_cast hn
  have hn32q : (n : ℚ) < 4294967296 := by exact_mod_cast hn32
  have hfl := Int.floor_le y
  have hlt := Int.lt_floor_add_one y
  generalize ⌊y⌋ = f at hfl hlt ⊢
  have hz : ((t - 2 * n * f : ℤ) : ℚ) = 2 * n * (y - f) := by
    rw [hy]
    push_cast
    field_simp
  have hz0 : (0 : ℤ) ≤ t - 2 * n * f := by
    have h : (0 : ℚ) ≤ ((t - 2 * n * f : ℤ) : ℚ) := by
      rw [hz]
      exact mul_nonneg (by positivity) (by linarith)
    exact_mod_cast h
  have hz1 : (t - 2 * n * f : ℤ) < 2 * n := by
    have h : ((t - 2 * n * f : ℤ) : ℚ) < ((2 * n : ℤ) : ℚ) := by
      rw [hz]
      push_cast
      have h1 : y - f < 1 := by linarith
      nlinarith
    exact_mod_cast h
  have hinv : (1 : ℚ) / 8589934592 < 1 / (2 * n) := by
    rw [div_lt_div_iff₀ (by norm_num) (by positivity)]
    linarith
  have hfrac : y - f = ((t - 2 * n * f : ℤ) : ℚ) / (2 * n) := by
    rw [hz]
    field_simp
  rcases eq_or_lt_of_le hz0 with hzero | hzpos
  · have hyint : y = f := by
      rw [← hzero] at hfrac
      simp only [Int.cast_zero, zero_div] at hfrac
      linarith
    rcases le_or_lt (f : ℚ) y' with hge | hlt'
    · left
      rw [Int.floor_eq_iff]
      exact ⟨hge, by linarith⟩
    · right
      refine ⟨hyint, ?_⟩
      rw [Int.floor_eq_iff]
      push_cast
      exact ⟨by linarith, by linarith⟩
  · left
    have hz1' : (1 : ℚ) ≤ ((t - 2 * n * f : ℤ) : ℚ) := by exact_mod_cast hzpos
    have hz2' : ((t - 2 * n * f : ℤ) : ℚ) ≤ 2 * n - 1 := by
      have h : (t - 2 * n * f : ℤ) ≤ 2 * n - 1 := by omega
      exact_mod_cast h
    have hlo' : 1 / (2 * (n : ℚ)) ≤ y - f := by
      rw [hfrac]
      exact div_le_div_of_nonneg_right hz1' (by positivity)
    have hhi' : y - f ≤ 1 - 1 / (2 * (n : ℚ)) := by
      rw [hfrac, div_le_iff₀ (by positivity)]
      have h : (1 - 1 / (2 * (n : ℚ))) * (2 * n) = 2 * n - 1 := by field_simp
      rw [h]
      exact hz2'
    rw [Int.floor_eq_iff]
    constructor <;> linarith

/-- The progress of `c` completed tasks out of `n`: the nearest integer to
`100 c / n`, except that an exact half may go either way. -/
theorem round_mul_div (c n : ℕ) (hc : c ≤ n) (hn : 0 < n) (hn32 : n < 2 ^ 32) :
    Math.round (F64.mul (F64.div c n) 100) = Math.round (100 * c / n) ∨
    ((100 : ℚ) * c / n + 1 / 2 = Math.round (100 * c / n) ∧
      Math.round (F64.mul (F64.div c n) 100) = Math.round (100 * c / n) - 1) := by
  have hnear := mul_div_near c n hc hn hn32
  have h44 : (2 : ℚ) ^ (-44 : ℤ) = 1 / 17592186044416 := by norm_num
  rw [h44, abs_le] at hnear
  have hnq : (0 : ℚ) < n := by exact_mod_cast hn
  unfold Math.round
  refine floor_near ((100 : ℚ) * c / n + 1 / 2) (F64.mul (F64.div c n) 100 + 1 / 2)
    (200 * c + n) n hn hn32 ?_ (by linarith [hnear.1]) (by linarith [hnear.2])
  push_cast
  field_simp
  ring


/-- The double `(23 / 40) * 100` rounds to 57. -/
theorem round_23_40 : Math.round (F64.mul (F64.div 23 40) 100) = 57 := by
  have h1 : F64.div 23 40 = 5179139571476070 / 2 ^ 53 := by
    unfold F64.div
    rw [F64.round_of_binade (23 / 40) (-1) (by norm_num) (by norm_num) (by norm_num),
      F64.roundHalfEven_eq_of_near _ 5179139571476070 (by norm_num [abs_lt])]
    norm_num
  have h2 : F64.mul (5179139571476070 / 2 ^ 53) 100 = 8092405580431359 / 2 ^ 47 := by
    unfold F64.mul
    rw [F64.round_of_binade _ 5 (by norm_num) (by norm_num) (by norm_num),
      F64.roundHalfEven_eq_of_near _ 8092405580431359 (by norm_num [abs_lt])]
    norm_num
  rw [h1, h2, Math.round, Int.floor_eq_iff]
  norm_num

/-- The double `(2 / 3) * 100` rounds to 67. -/
theorem round_2_3 : Math.round (F64.mul (F64.div 2 3) 100) = 67 := by
  have h1 : F64.div 2 3 = 6004799503160661 / 2 ^ 53 := by
    unfold F64.div
    rw [F64.round_of_binade (2 / 3) (-1) (by norm_num) (by norm_num) (by norm_num),
      F64.roundHalfEven_eq_of_near _ 6004799503160661 (by norm_num [abs_lt])]
    norm_num
  have h2 : F64.mul (6004799503160661 / 2 ^ 53) 100 = 4691249611844266 / 2 ^ 46 := by
    unfold F64.mul
    rw [F64.round_of_binade _ 6 (by norm_num) (by norm_num) (by norm_num),
      F64.roundHalfEven_eq_of_near _ 4691249611844266 (by norm_num [abs_lt])]
    norm_num
  rw [h1, h2, Math.round, Int.floor_eq_iff]
  norm_num

/-! ### Progress -/

/-- The progress of a non-empty list, written out. -/
theorem getSessionProgress_of_ne_nil (tasks : TaskStore) (k : SessionKey)
    (h : tasks.list k ≠ []) :
    getSessionProgress tasks k
      = Math.round (F64.mul
          (F64.div (((tasks.list k).filter fun t => t.completed).length : ℕ)
            ((tasks.list k).length : ℕ)) 100) := by
  have hlen : (tasks.list k).length ≠ 0 := fun h0 => h (List.length_eq_zero.1 h0)
  simp only [getSessionProgress, hlen, if_false]

/-- C6 as stated fails: for a list of 40 tasks of which 23 are completed,
`100 * 23 / 40 = 57.5` and the nearest integer with ties rounded up is 58, but
the double `(23 / 40) * 100` is `57.49999999999999` and `getSessionProgress`
returns 57. -/
theorem getSessionProgress_tie_rounds_down :
    getSessionProgress
      { morning := some (List.replicate 23 ⟨"t", WorkArea.lecture, true⟩
          ++ List.replicate 17 ⟨"t", WorkArea.lecture, false⟩)
        midday := some []
        afternoon := some [] } SessionKey.morning = 57 ∧
    Math.round ((100 : ℚ) * 23 / 40) = 58 ∧
    ¬ (getSessionProgress
      { morning := some (List.replicate 23 ⟨"t", WorkArea.lecture, true⟩
          ++ List.replicate 17 ⟨"t", WorkArea.lecture, false⟩)
        midday := some []
        afternoon := some [] } SessionKey.morning = Math.round ((100 : ℚ) * 23 / 40)) := by
  have h1 : getSessionProgress
      { morning := some (List.replicate 23 ⟨"t", WorkArea.lecture, true⟩
          ++ List.replicate 17 ⟨"t", WorkArea.lecture, false⟩)
        midday := some []
        afternoon := some [] } SessionKey.morning = 57 := by
    rw [getSessionProgress_of_ne_nil _ _ (by simp [TaskStore.list, TaskStore.get])]
    have hc : ((TaskStore.list
        { morning := some (List.replicate 23 ⟨"t", WorkArea.lecture, true⟩
            ++ List.replicate 17 ⟨"t", WorkArea.lecture, false⟩)
          midday := some []
          afternoon := some [] } SessionKey.morning).filter fun t => t.completed).length
        = 23 := by
      decide
    have hn : (TaskStore.list
        { morning := some (List.replicate 23 ⟨"t", WorkArea.lecture, true⟩
            ++ List.replicate 17 ⟨"t", WorkArea.lecture, false⟩)
          midday := some []
          afternoon := some [] } SessionKey.morning).length = 40 := by
      decide
    rw [hc, hn]
    exact_mod_cast round_23_40
  have h2 : Math.round ((100 : ℚ) * 23 / 40) = 58 := by
    rw [Math.round, Int.floor_eq_iff]
    norm_num
  refine ⟨h1, h2, ?_⟩
  rw [h1, h2]
  decide

/-- C6, amended: `getSessionProgress` returns 0 for an absent key and for an
empty list; for a non-empty list (of length below `2 ^ 32`, the bound on a
JavaScript array) with `c` completed tasks out of `n` it returns `Math.round`
of the double `(c / n) * 100`, which is the integer nearest to `100 c / n` with
ties rounded up, except that when `100 c / n` lies exactly halfway between two
integers the lower one may be returned; the result lies in 0..100, and it is 67
for the list [completed, not completed, completed]. -/
theorem getSessionProgress_spec (tasks : TaskStore) (k : SessionKey)
    (hlen : (tasks.list k).length < 2 ^ 32) :
    (tasks.get k = none → getSessionProgress tasks k = 0) ∧
    (tasks.list k = [] → getSessionProgress tasks k = 0) ∧
    (tasks.list k ≠ [] →
      getSessionProgress tasks k
        = Math.round (F64.mul
            (F64.div (((tasks.list k).filter fun t => t.completed).length : ℕ)
              ((tasks.list k).length : ℕ)) 100) ∧
      (getSessionProgress tasks k
          = Math.round ((100 : ℚ) * (((tasks.list k).filter fun t => t.completed).length : ℕ)
              / ((tasks.list k).length : ℕ)) ∨
        ((100 : ℚ) * (((tasks.list k).filter fun t => t.completed).length : ℕ)
              / ((tasks.list k).length : ℕ) + 1 / 2
            = Math.round ((100 : ℚ) * (((tasks.list k).filter fun t => t.completed).length : ℕ)
              / ((tasks.list k).length : ℕ)) ∧
          getSessionProgress tasks k
            = Math.round ((100 : ℚ)
                * (((tasks.list k).filter fun t => t.completed).length : ℕ)
                / ((tasks.list k).length : ℕ)) - 1))) ∧
    0 ≤ getSessionProgress tasks k ∧ getSessionProgress tasks k ≤ 100 ∧
    getSessionProgress
      { morning := some [⟨"a", WorkArea.lecture, true⟩, ⟨"b", WorkArea.paper, false⟩,
          ⟨"c", WorkArea.book, true⟩]
        midday := some []
        afternoon := some [] } SessionKey.morning = 67 := by
  have hempty : tasks.list k = [] → getSessionProgress tasks k = 0 := by
    intro h
    simp [getSessionProgress, h]
  have hmain : tasks.list k ≠ [] →
      (getSessionProgress tasks k
          = Math.round ((100 : ℚ) * (((tasks.list k).filter fun t => t.completed).length : ℕ)
              / ((tasks.list k).length : ℕ)) ∨
        ((100 : ℚ) * (((tasks.list k).filter fun t => t.completed).length : ℕ)
              / ((tasks.list k).length : ℕ) + 1 / 2
            = Math.round ((100 : ℚ) * (((tasks.list k).filter fun t => t.completed).length : ℕ)
              / ((tasks.list k).length : ℕ)) ∧
          getSessionProgress tasks k
            = Math.round ((100 : ℚ)
                * (((tasks.list k).filter fun t => t.completed).length : ℕ)
                / ((tasks.list k).length : ℕ)) - 1)) := by
    intro h
    rw [getSessionProgress_of_ne_nil tasks k h]
    exact round_mul_div _ _ (List.length_filter_le _ _)
      (List.length_pos.2 h) hlen
  have hbounds : 0 ≤ getSessionProgress tasks k ∧ getSessionProgress tasks k ≤ 100 := by
    by_cases h : tasks.list k = []
    · rw [hempty h]
      exact ⟨le_refl _, by norm_num⟩
    · have hn : (0 : ℚ) < ((tasks.list k).length : ℕ) := by
        exact_mod_cast List.length_pos.2 h
      have hc : ((((tasks.list k).filter fun t => t.completed).length : ℕ) : ℚ)
          ≤ ((tasks.list k).length : ℕ) := by
        exact_mod_cast List.length_filter_le _ _
      have hc0 : (0 : ℚ) ≤ (((tasks.list k).filter fun t => t.completed).length : ℕ) :=
        Nat.cast_nonneg _
      have hq0 : (0 : ℚ) ≤ 100 * (((tasks.list k).filter fun t => t.completed).length : ℕ)
          / ((tasks.list k).length : ℕ) := by positivity
      have hq1 : (100 : ℚ) * (((tasks.list k).filter fun t => t.completed).length : ℕ)
          / ((tasks.list k).length : ℕ) ≤ 100 := by
        rw [div_le_iff₀ hn]
        linarith
      have hr0 : (0 : ℤ) ≤ Math.round ((100 : ℚ)
          * (((tasks.list k).filter fun t => t.completed).length : ℕ)
          / ((tasks.list k).length : ℕ)) := by
        rw [Math.round, Int.le_floor]
        push_cast
        linarith
      have hr1 : Math.round ((100 : ℚ)
          * (((tasks.list k).filter fun t => t.completed).length : ℕ)
          / ((tasks.list k).length : ℕ)) ≤ 100 := by
        have h' : Math.round ((100 : ℚ)
            * (((tasks.list k).filter fun t => t.completed).length : ℕ)
            / ((tasks.list k).length : ℕ)) < 101 := by
          rw [Math.round, Int.floor_lt]
          push_cast
          linarith
        omega
      rcases hmain h with heq | ⟨htie, heq⟩
      · rw [heq]
        exact ⟨hr0, hr1⟩
      · rw [heq]
        have hpos : (0 : ℚ) < (Math.round ((100 : ℚ)
            * (((tasks.list k).filter fun t => t.completed).length : ℕ)
            / ((tasks.list k).length : ℕ)) : ℤ) := by
          rw [← htie]
          linarith
        have hpos' : (0 : ℤ) < Math.round ((100 : ℚ)
            * (((tasks.list k).filter fun t => t.completed).length : ℕ)
            / ((tasks.list k).length : ℕ)) := by exact_mod_cast hpos
        constructor <;> omega
  refine ⟨?_, hempty, fun h => ⟨getSessionProgress_of_ne_nil tasks k h, hmain h⟩, hbounds.1,
    hbounds.2, ?_⟩
  · intro h
    exact hempty (by simp [TaskStore.list, h])
  · rw [getSessionProgress_of_ne_nil _ _ (by simp [TaskStore.list, TaskStore.get])]
    exact_mod_cast round_2_3

/-- Instance of C6, amended, on a morning list with one of two tasks completed. -/
theorem getSessionProgress_spec_witness :
    0 ≤ getSessionProgress
      { morning := some [⟨"a", WorkArea.lecture, true⟩, ⟨"b", WorkArea.paper, false⟩]
        midday := some []
        afternoon := none } SessionKey.morning ∧
    getSessionProgress
      { morning := some [⟨"a", WorkArea.lecture, true⟩, ⟨"b", WorkArea.paper, false⟩]
        midday := some []
        afternoon := none } SessionKey.afternoon = 0 :=
  ⟨(getSessionProgress_spec
      { morning := some [⟨"a", WorkArea.lecture, true⟩, ⟨"b", WorkArea.paper, false⟩]
        midday := some []
        afternoon := none } SessionKey.morning (by decide)).2.2.2.1,
   (getSessionProgress_spec
      { morning := some [⟨"a", WorkArea.lecture, true⟩, ⟨"b", WorkArea.paper, false⟩]
        midday := some []
        afternoon := none } SessionKey.afternoon (by decide)).1 rfl⟩

/-! ### Completing a session -/

/-- The double `1 / 3600`. -/
theorem div_1_3600 : F64.div 1 3600 = 5124095576030431 / 2 ^ 64 := by
  unfold F64.div
  rw [F64.round_of_binade (1 / 3600) (-12) (by norm_num) (by norm_num) (by norm_num),
    F64.roundHalfEven_eq_of_near _ 5124095576030431 (by norm_num [abs_lt])]
  norm_num

/-- The double `5400 / 3600` is exactly `3 / 2`. -/
theorem div_5400_3600 : F64.div 5400 3600 = 3 / 2 := by
  unfold F64.div
  rw [F64.round_of_binade (5400 / 3600) 0 (by norm_num) (by norm_num) (by norm_num),
    F64.roundHalfEven_eq_of_near _ 6755399441055744 (by norm_num [abs_lt])]
  norm_num

/-- C8 as stated fails: with one elapsed second and `totalHours = 0`, the
complete handler stores the double nearest to `1 / 3600`, which is
`5124095576030431 / 2 ^ 64` and not the rational `0 + 1 / 3600`. -/
theorem completeOnClick_not_exact :
    (completeOnClick { State.init with
        currentView := View.session
        selectedSession := some SessionKey.morning
        isWorking := true
        sessionTime := 1 }).weeklyStats.totalHours = 5124095576030431 / 2 ^ 64 ∧
    (completeOnClick { State.init with
        currentView := View.session
        selectedSession := some SessionKey.morning
        isWorking := true
        sessionTime := 1 }).weeklyStats.totalHours ≠ 0 + (1 : ℚ) / 3600 := by
  have h : (completeOnClick { State.init with
        currentView := View.session
        selectedSession := some SessionKey.morning
        isWorking := true
        sessionTime := 1 }).weeklyStats.totalHours = 5124095576030431 / 2 ^ 64 := by
    show F64.add 0 (F64.div ((1 : ℕ) : ℚ) 3600) = _
    rw [Nat.cast_one, div_1_3600]
    unfold F64.add
    rw [F64.round_of_binade _ (-12) (by norm_num) (by norm_num) (by norm_num),
      F64.roundHalfEven_eq_of_near _ 5124095576030431 (by norm_num [abs_lt])]
    norm_num
  refine ⟨h, ?_⟩
  rw [h]
  norm_num

/-- The sum of `w` and the double quotient `s / 3600`, rounded, is within a
relative `2 ^ (-51)` of the exact sum. -/
theorem add_div_near (w : ℚ) (s : ℕ)
    (hw : w = 0 ∨ (2 : ℚ) ^ (-1022 : ℤ) ≤ w) :
    |F64.add w (F64.div s 3600) - (w + s / 3600)| ≤ (w + s / 3600) * 2 ^ (-51 : ℤ) := by
  have h53 : (2 : ℚ) ^ (-53 : ℤ) = 1 / 9007199254740992 := by norm_num
  have h51 : (2 : ℚ) ^ (-51 : ℤ) = 1 / 2251799813685248 := by norm_num
  have hsmall : (2 : ℚ) ^ (-1022 : ℤ) ≤ 1 / 7200 := by norm_num
  have hw0 : 0 ≤ w := by
    rcases hw with h | h
    · rw [h]
    · exact le_trans (by positivity) h
  rcases Nat.eq_zero_or_pos s with h0 | hs
  · subst h0
    rcases hw with h | h
    · subst h
      simp [F64.add, F64.div, F64.round_zero]
    · have e := F64.abs_round_sub_le w h
      rw [h53, abs_le] at e
      simp only [F64.add, F64.div, Nat.cast_zero, zero_div, F64.round_zero, add_zero]
      rw [h51, abs_le]
      constructor <;> linarith [e.1, e.2]
  · have hsq : (1 : ℚ) ≤ s := by exact_mod_cast hs
    have hq : (1 : ℚ) / 3600 ≤ (s : ℚ) / 3600 := by linarith
    have e1 := F64.abs_round_sub_le ((s : ℚ) / 3600) (le_trans hsmall (by linarith))
    have hdiv : F64.round ((s : ℚ) / 3600) = F64.div s 3600 := rfl
    rw [hdiv, h53, abs_le] at e1
    have e2 := F64.abs_round_sub_le (w + F64.div s 3600)
      (le_trans hsmall (by linarith [e1.1]))
    have hadd : F64.round (w + F64.div s 3600) = F64.add w (F64.div s 3600) := rfl
    rw [hadd, h53, abs_le] at e2
    rw [h51, abs_le]
    constructor <;> linarith [e1.1, e1.2, e2.1, e2.2]

/-- C8, amended: the complete handler yields `isWorking = false`,
`sessionTime = 0`, `completedSessions` one more than before, and `totalHours`
equal to the double sum of the old `totalHours` and the double quotient
`s / 3600` (each operation rounded to the nearest double); this is within a
relative `2 ^ (-51)` of the exact `totalHours + s / 3600` when the old total is
zero or a normal positive double, the increment is exactly `3 / 2` for
`s = 5400`, and the new total is exactly `3 / 2` for `s = 5400` and an old
total of zero; `byArea`, the task store, the view and the selected session are
unchanged. -/
theorem completeOnClick_spec (st : State)
    (hw : st.weeklyStats.totalHours = 0 ∨ (2 : ℚ) ^ (-1022 : ℤ) ≤ st.weeklyStats.totalHours) :
    (completeOnClick st).isWorking = false ∧
    (completeOnClick st).sessionTime = 0 ∧
    (completeOnClick st).weeklyStats.completedSessions
      = st.weeklyStats.completedSessions + 1 ∧
    (completeOnClick st).weeklyStats.totalHours
      = F64.add st.weeklyStats.totalHours (F64.div st.sessionTime 3600) ∧
    |(completeOnClick st).weeklyStats.totalHours
        - (st.weeklyStats.totalHours + st.sessionTime / 3600)|
      ≤ (st.weeklyStats.totalHours + st.sessionTime / 3600) * 2 ^ (-51 : ℤ) ∧
    (st.sessionTime = 5400 →
      (completeOnClick st).weeklyStats.totalHours = F64.add st.weeklyStats.totalHours (3 / 2)) ∧
    (st.sessionTime = 5400 → st.weeklyStats.totalHours = 0 →
      (completeOnClick st).weeklyStats.totalHours = 3 / 2) ∧
    (completeOnClick st).weeklyStats.byArea = st.weeklyStats.byArea ∧
    (completeOnClick st).tasks = st.tasks ∧
    (completeOnClick st).currentView = st.currentView ∧
    (completeOnClick st).selectedSession = st.selectedSession := by
  have h5400 : st.sessionTime = 5400 →
      (completeOnClick st).weeklyStats.totalHours
        = F64.add st.weeklyStats.totalHours (3 / 2) := by
    intro h
    show F64.add st.weeklyStats.totalHours (F64.div (st.sessionTime : ℚ) 3600) = _
    rw [h]
    have hc : ((5400 : ℕ) : ℚ) = 5400 := by norm_num
    rw [hc, div_5400_3600]
  refine ⟨rfl, rfl, rfl, rfl, add_div_near _ _ hw, h5400, ?_, rfl, rfl, rfl, rfl⟩
  intro h hz
  rw [h5400 h, hz]
  unfold F64.add
  rw [F64.round_of_binade _ 0 (by norm_num) (by norm_num) (by norm_num),
    F64.roundHalfEven_eq_of_near _ 6755399441055744 (by norm_num [abs_lt])]
  norm_num

/-- Instance of C8, amended: 5400 seconds completed from the initial stats. -/
theorem completeOnClick_spec_witness :
    (completeOnClick { State.init with
        currentView := View.session
        selectedSession := some SessionKey.morning
        isWorking := true
        sessionTime := 5400 }).weeklyStats.totalHours = 3 / 2 :=
  (completeOnClick_spec { State.init with
        currentView := View.session
        selectedSession := some SessionKey.morning
        isWorking := true
        sessionTime := 5400 } (Or.inl rfl)).2.2.2.2.2.2.1 rfl rfl

/-! ### Formatting -/

namespace F64

/-- An integer below `2 ^ 53` is a double. -/
theorem round_natCast (k : ℕ) (hk : k < 2 ^ 53) : round (k : ℚ) = k := by
  rcases Nat.eq_zero_or_pos k with h0 | hpos
  · subst h0
    simp [round_zero]
  have hkq : (0 : ℚ) < k := by exact_mod_cast hpos
  have hlog : Nat.log 2 k < 53 := Nat.log_lt_of_lt_pow hpos.ne' hk
  have h1 : (2 : ℚ) ^ ((Nat.log 2 k : ℕ) : ℤ) ≤ k := by
    rw [zpow_natCast]
    exact_mod_cast Nat.pow_log_le_self 2 hpos.ne'
  have h2 : (k : ℚ) < (2 : ℚ) ^ (((Nat.log 2 k : ℕ) : ℤ) + 1) := by
    have h : k < 2 ^ (Nat.log 2 k + 1) := Nat.lt_pow_succ_log_self (by norm_num) k
    have h' : (k : ℚ) < (2 : ℚ) ^ (Nat.log 2 k + 1) := by exact_mod_cast h
    rw [show (((Nat.log 2 k : ℕ) : ℤ) + 1) = ((Nat.log 2 k + 1 : ℕ) : ℤ) by push_cast; ring,
      zpow_natCast]
    exact h'
  rw [round_of_binade _ _ h1 h2 (by omega)]
  obtain ⟨j, hj⟩ : ∃ j : ℕ, ((Nat.log 2 k : ℕ) : ℤ) - 52 = -(j : ℤ) :=
    ⟨52 - Nat.log 2 k, by omega⟩
  rw [hj, zpow_neg, zpow_natCast]
  have hint : (k : ℚ) / ((2 : ℚ) ^ j)⁻¹ = ((k * 2 ^ j : ℕ) : ℤ) := by
    push_cast
    field_simp
  rw [hint, roundHalfEven_intCast]
  push_cast
  field_simp

/-- For integers `s < 2 ^ 53` and `0 < d < 2 ^ 53`, the floor of the double
quotient is the integer quotient. -/
theorem floor_div (s d : ℕ) (hs : s < 2 ^ 53) (hd : 0 < d) (hd53 : d < 2 ^ 53) :
    ⌊div (s : ℚ) (d : ℚ)⌋ = ((s / d : ℕ) : ℤ) := by
  have hdq : (0 : ℚ) < d := by exact_mod_cast hd
  have hsq : (s : ℚ) < 9007199254740992 := by exact_mod_cast hs
  have hd53q : (d : ℚ) < 9007199254740992 := by exact_mod_cast hd53
  have h53 : (2 : ℚ) ^ (-53 : ℤ) = 1 / 9007199254740992 := by norm_num
  have hsplit : (s : ℚ) = (d : ℚ) * ((s / d : ℕ) : ℚ) + ((s % d : ℕ) : ℚ) := by
    exact_mod_cast (Nat.div_add_mod s d).symm
  have hq : (s : ℚ) / d = ((s / d : ℕ) : ℚ) + ((s % d : ℕ) : ℚ) / d := by
    rw [hsplit]
    field_simp
    ring
  rw [Int.floor_eq_iff]
  simp only [Int.cast_natCast]
  rcases Nat.eq_zero_or_pos (s % d) with hr | hr
  · -- the quotient is an integer, hence a double
    have hexact : (s : ℚ) / d = ((s / d : ℕ) : ℚ) := by
      rw [hq, hr]
      simp
    have hk : s / d < 2 ^ 53 := lt_of_le_of_lt (Nat.div_le_self s d) hs
    unfold div
    rw [hexact, round_natCast _ hk]
    exact ⟨le_refl _, by linarith⟩
  · have hspos : 0 < s := by
      rcases Nat.eq_zero_or_pos s with h0 | h
      · rw [h0] at hr
        simp at hr
      · exact h
    have hs1 : (1 : ℚ) ≤ s := by exact_mod_cast hspos
    have hr1 : (1 : ℚ) ≤ ((s % d : ℕ) : ℚ) := by exact_mod_cast hr
    have hr2 : ((s % d : ℕ) : ℚ) + 1 ≤ d := by
      exact_mod_cast Nat.mod_lt s hd
    have hqlo : (1 : ℚ) / 9007199254740992 ≤ (s : ℚ) / d := by
      rw [div_le_div_iff₀ (by norm_num) hdq]
      linarith
    have e := abs_round_sub_le ((s : ℚ) / d) (le_trans (by norm_num) hqlo)
    rw [h53, abs_le] at e
    have herr : (s : ℚ) / d * (1 / 9007199254740992) < 1 / d := by
      rw [div_mul_eq_mul_div, div_lt_div_iff_of_pos_right hdq]
      linarith
    have hfrac1 : (1 : ℚ) / d ≤ ((s % d : ℕ) : ℚ) / d :=
      div_le_div_of_nonneg_right hr1 hdq.le
    have hfrac2 : ((s % d : ℕ) : ℚ) / d + 1 / d ≤ 1 := by
      rw [← add_div, div_le_one hdq]
      exact hr2
    unfold div
    constructor <;> linarith [e.1, e.2]
end F64

/-- Two digits: a number below 100 padded to width 2. -/
theorem padStart_repr (n : Nat) (h : n < 100) :
    padStart (Nat.repr n) 2 '0'
      = String.mk [Nat.digitChar (n / 10), Nat.digitChar (n % 10)] := by
  revert n
  decide

/-- A number of three digits or more is not padded. -/
theorem padStart_of_le (str : String) (n : Nat) (c : Char) (h : n ≤ str.length) :
    padStart str n c = str := by
  unfold padStart
  rw [Nat.sub_eq_zero_of_le h]
  rfl

/-- The decimal form of a number from 100 on has at least three digits. -/
theorem repr_length_ge (n : Nat) (h : 100 ≤ n) : 3 ≤ (Nat.repr n).length := by
  unfold Nat.repr Nat.toDigits
  simp only [String.length, List.asString]
  have h1 : n / 10 ≠ 0 := by omega
  have h2 : n / 10 / 10 ≠ 0 := by omega
  obtain ⟨f, hf⟩ : ∃ f, n + 1 = f + 3 := ⟨n - 2, by omega⟩
  rw [hf]
  simp only [Nat.toDigitsCore, h1, h2, if_false]
  split_ifs
  · simp
  · rw [Nat.toDigitsCore_lens_eq, Nat.toDigitsCore_lens_eq, Nat.toDigitsCore_lens_eq]
    omega

/-- `formatTime` with the double divisions replaced by integer divisions. -/
theorem formatTime_eq (s : Nat) (hs : s < 2 ^ 53) :
    formatTime s = padStart (Nat.repr (s / 3600)) 2 '0' ++ ":"
      ++ padStart (Nat.repr (s % 3600 / 60)) 2 '0' ++ ":"
      ++ padStart (Nat.repr (s % 60)) 2 '0' := by
  have h1 := F64.floor_div s 3600 hs (by norm_num) (by norm_num)
  have h2 := F64.floor_div (s % 3600) 60 (by omega) (by norm_num) (by norm_num)
  simp only [Nat.cast_ofNat] at h1 h2
  simp only [formatTime, Math.floor, numberToString, h1, h2, Int.toNat_ofNat]

/-- C9 as stated fails: 360000 seconds are 100 hours, and `padStart(2, '0')`
does not shorten the three digits of the hours field, so the string is
`100:00:00`, of length 9. -/
theorem formatTime_hundred_hours :
    formatTime 360000 = "100:00:00" ∧ (formatTime 360000).length = 9 := by
  have h : formatTime 360000 = "100:00:00" := by
    rw [formatTime_eq 360000 (by norm_num)]
    decide
  rw [h]
  exact ⟨rfl, by decide⟩

/-- C9, amended: for every integer `0 ≤ s < 2 ^ 53`, `formatTime s` is
`HH:MM:SS` where `MM` and `SS` are exactly the two decimal digits, zero-padded,
of `floor((s mod 3600) / 60)` and `s mod 60`, and `HH` is the decimal form of
`floor(s / 3600)` zero-padded to at least two digits; for `s < 360000` (fewer
than 100 hours) `HH` is exactly two digits and the string has length 8, and
for `s ≥ 360000` the hours field has three digits or more and the string is
longer. -/
theorem formatTime_spec (s : Nat) (hs : s < 2 ^ 53) :
    formatTime s = padStart (Nat.repr (s / 3600)) 2 '0' ++ ":"
      ++ String.mk [Nat.digitChar (s % 3600 / 60 / 10), Nat.digitChar (s % 3600 / 60 % 10)]
      ++ ":" ++ String.mk [Nat.digitChar (s % 60 / 10), Nat.digitChar (s % 60 % 10)] ∧
    (s < 360000 →
      formatTime s = String.mk
        [Nat.digitChar (s / 3600 / 10), Nat.digitChar (s / 3600 % 10), ':',
         Nat.digitChar (s % 3600 / 60 / 10), Nat.digitChar (s % 3600 / 60 % 10), ':',
         Nat.digitChar (s % 60 / 10), Nat.digitChar (s % 60 % 10)] ∧
      (formatTime s).length = 8) ∧
    (360000 ≤ s →
      padStart (Nat.repr (s / 3600)) 2 '0' = Nat.repr (s / 3600) ∧
      3 ≤ (Nat.repr (s / 3600)).length ∧ 9 ≤ (formatTime s).length) := by
  have hm : s % 3600 / 60 < 100 := by omega
  have hsec : s % 60 < 100 := by omega
  have heq := formatTime_eq s hs
  rw [padStart_repr _ hm, padStart_repr _ hsec] at heq
  refine ⟨heq, ?_, ?_⟩
  · intro h
    have hh : s / 3600 < 100 := by omega
    rw [padStart_repr _ hh] at heq
    have h8 : formatTime s = String.mk
        [Nat.digitChar (s / 3600 / 10), Nat.digitChar (s / 3600 % 10), ':',
         Nat.digitChar (s % 3600 / 60 / 10), Nat.digitChar (s % 3600 / 60 % 10), ':',
         Nat.digitChar (s % 60 / 10), Nat.digitChar (s % 60 % 10)] := by
      rw [heq]
      simp [String.ext_iff]
    refine ⟨h8, ?_⟩
    rw [h8]
    rfl
  · intro h
    have hh : 100 ≤ s / 3600 := by omega
    have h3 := repr_length_ge _ hh
    have hpad := padStart_of_le (Nat.repr (s / 3600)) 2 '0' (by omega)
    refine ⟨hpad, h3, ?_⟩
    rw [heq, hpad]
    simp only [String.length_append]
    have hm2 : (String.mk [Nat.digitChar (s % 3600 / 60 / 10),
        Nat.digitChar (s % 3600 / 60 % 10)]).length = 2 := rfl
    have hs2 : (String.mk [Nat.digitChar (s % 60 / 10),
        Nat.digitChar (s % 60 % 10)]).length = 2 := rfl
    have hc : ":".length = 1 := rfl
    omega

/-- Instance of C9, amended, at one hour, one minute and one second. -/
theorem formatTime_spec_witness :
    formatTime 3661 = String.mk
        [Nat.digitChar (3661 / 3600 / 10), Nat.digitChar (3661 / 3600 % 10), ':',
         Nat.digitChar (3661 % 3600 / 60 / 10), Nat.digitChar (3661 % 3600 / 60 % 10), ':',
         Nat.digitChar (3661 % 60 / 10), Nat.digitChar (3661 % 60 % 10)] ∧
    (formatTime 3661).length = 8 :=
  (formatTime_spec 3661 (by norm_num)).2.1 (by norm_num)

/-! ### Navigation -/

/-- The screen on display, read off from the two cells the dispatch looks at. -/
theorem renderDispatch_cases (st : State) :
    (renderDispatch st = Screen.HomeView ↔
      (st.currentView = View.home ∨
        (st.currentView = View.session ∧ st.selectedSession = none))) ∧
    (renderDispatch st = Screen.SessionView ↔
      (st.currentView = View.session ∧ st.selectedSession.isSome = true)) ∧
    (renderDispatch st = Screen.AddTaskView ↔ st.currentView = View.addTask) ∧
    (renderDispatch st = Screen.ProjectsView ↔ st.currentView = View.projects) ∧
    (renderDispatch st = Screen.StatsView ↔ st.currentView = View.stats) := by
  cases hv : st.currentView <;> cases hs : st.selectedSession <;>
    simp [renderDispatch, hv, hs]

/-- A click in `HomeView` leaves a selected session behind whenever it moves to
the add-task view, and never moves to the session view. -/
theorem HomeView.onClick_invariant (date : JsDate) (st st' : State) (click : HomeClick)
    (hv : st.currentView = View.home) (h : HomeView.onClick date st click = some st') :
    selectionInvariant st' := by
  cases click with
  | card key =>
    simp only [HomeView.onClick] at h
    split_ifs at h
    injection h with h
    subst h
    have hc := cardOnClick_currentView date key st
    constructor <;> intro h' <;> rw [hc, hv] at h' <;> exact View.noConfusion h'
  | addTaskButton key =>
    simp only [HomeView.onClick] at h
    split_ifs at h
    injection h with h
    subst h
    exact ⟨fun _ => rfl, fun _ => rfl⟩
  | projects =>
    simp only [HomeView.onClick, Option.some.injEq] at h
    subst h
    constructor <;> intro h' <;> exact View.noConfusion h'
  | stats =>
    simp only [HomeView.onClick, Option.some.injEq] at h
    subst h
    constructor <;> intro h' <;> exact View.noConfusion h'

/-- Every event preserves the navigation invariant. -/
theorem step_selectionInvariant (date : JsDate) (cmd : Command) (st st' : State)
    (hinv : selectionInvariant st) (h : step date cmd st = some st') :
    selectionInvariant st' := by
  obtain ⟨hH, hS, hA, hP, hT⟩ := renderDispatch_cases st
  have hhome : renderDispatch st = Screen.HomeView → st.currentView = View.home := by
    intro hr
    rcases hH.1 hr with h1 | ⟨h1, h2⟩
    · exact h1
    · have := hinv.1 h1
      rw [h2] at this
      exact Bool.noConfusion this
  cases cmd with
  | tick =>
    simp only [step, Option.some.injEq] at h
    subst h
    unfold tick
    split_ifs <;> exact hinv
  | cardClick key =>
    simp only [step] at h
    split_ifs at h with hr
    exact HomeView.onClick_invariant date st st' _ (hhome hr) h
  | addTaskButton key =>
    simp only [step] at h
    split_ifs at h with hr
    exact HomeView.onClick_invariant date st st' _ (hhome hr) h
  | openProjects =>
    simp only [step] at h
    split_ifs at h with hr
    exact HomeView.onClick_invariant date st st' _ (hhome hr) h
  | openStats =>
    simp only [step] at h
    split_ifs at h with hr
    exact HomeView.onClick_invariant date st st' _ (hhome hr) h
  | sessionBack =>
    simp only [step] at h
    split_ifs at h with hr
    injection h with h
    subst h
    constructor <;> intro h' <;> exact View.noConfusion h'
  | start =>
    simp only [step] at h
    split_ifs at h with hr
    injection h with h
    subst h
    exact hinv
  | pause =>
    simp only [step] at h
    split_ifs at h with hr
    injection h with h
    subst h
    exact hinv
  | complete =>
    simp only [step] at h
    split_ifs at h with hr
    injection h with h
    subst h
    exact hinv
  | sessionAdd =>
    simp only [step] at h
    split_ifs at h with hr
    injection h with h
    subst h
    exact ⟨fun h' => View.noConfusion h', fun _ => (hS.1 hr).2⟩
  | toggle idx =>
    simp only [step] at h
    split_ifs at h with hr
    unfold taskOnClick at h
    split at h
    · exact Option.noConfusion h
    · split at h
      · exact Option.noConfusion h
      · split at h
        · exact Option.noConfusion h
        · injection h with h
          subst h
          exact hinv
  | addTaskBack =>
    simp only [step] at h
    split_ifs at h with hr
    injection h with h
    subst h
    have hsel := hinv.2 (hA.1 hr)
    exact ⟨fun _ => hsel, fun _ => hsel⟩
  | submit title area =>
    simp only [step] at h
    split_ifs at h with hr
    injection h with h
    subst h
    have hsel := hinv.2 (hA.1 hr)
    unfold submitButtonClick submitOnClick
    split_ifs
    · exact hinv
    · split
      · rename_i s hs
        exact ⟨fun _ => hsel, fun _ => hsel⟩
      · exact hinv
  | close =>
    simp only [step] at h
    split_ifs at h with hr
    injection h with h
    subst h
    constructor <;> intro h' <;> exact View.noConfusion h'

/-- The navigation invariant holds along every run that starts in it. -/
theorem run_selectionInvariant (cmds : List (JsDate × Command)) (st st' : State)
    (hinv : selectionInvariant st) (h : run cmds st = some st') :
    selectionInvariant st' := by
  induction cmds generalizing st with
  | nil =>
    simp only [run, Option.some.injEq] at h
    subst h
    exact hinv
  | cons c rest ih =>
    obtain ⟨date, cmd⟩ := c
    simp only [run] at h
    split at h
    · exact Option.noConfusion h
    · rename_i st1 hstep
      exact ih st1 (step_selectionInvariant date cmd st st1 hinv hstep) h

/-- C11: in every state reached from the initial state by a finite sequence of
the component's commands (card click, add-task button on an empty card,
`+ add`, submit, back from the add-task view, back from the session view,
start, pause, complete, toggle, open projects or stats, close, timer tick),
`selectedSession` is non-null whenever `currentView` is `session`, and whenever
`currentView` is `addTask`, from wherever that view was entered and so in
particular when it was entered from a session. -/
theorem selectedSession_invariant (cmds : List (JsDate × Command)) (st : State)
    (h : run cmds State.init = some st) :
    (st.currentView = View.session → st.selectedSession ≠ none) ∧
    (st.currentView = View.addTask → st.selectedSession ≠ none) := by
  have hinit : selectionInvariant State.init :=
    ⟨fun h' => View.noConfusion h', fun h' => View.noConfusion h'⟩
  have hinv := run_selectionInvariant cmds State.init st hinit h
  constructor
  · intro hv hn
    have := hinv.1 hv
    rw [hn] at this
    exact Bool.noConfusion this
  · intro hv hn
    have := hinv.2 hv
    rw [hn] at this
    exact Bool.noConfusion this

/-- Instance of C11: the add-task button of the empty morning card followed by
a submit ends on the session screen with the morning session selected. -/
theorem selectedSession_invariant_witness :
    ∃ st : State,
      run [(⟨0, 1⟩, Command.addTaskButton SessionKey.morning),
           (⟨0, 1⟩, Command.submit "read" WorkArea.paper)] State.init = some st ∧
      st.currentView = View.session ∧ st.selectedSession ≠ none :=
  ⟨_, rfl, rfl,
    (selectedSession_invariant
      [(⟨0, 1⟩, Command.addTaskButton SessionKey.morning),
       (⟨0, 1⟩, Command.submit "read" WorkArea.paper)] _ rfl).1 rfl⟩

/-- The list of a session other than the one written to is unchanged. -/
theorem TaskStore.list_set_ne (t : TaskStore) (k k' : SessionKey) (v : List Task)
    (h : k' ≠ k) : (t.set k v).list k' = t.list k' := by
  simp [TaskStore.list, TaskStore.get_set_ne t k k' v h]

/-- In a state that satisfies the navigation invariant, every event keeps a
session that has a task, and is not the one on display, out of the session and
add-task views. -/
theorem step_shutOut (s : SessionKey) (date : JsDate) (cmd : Command) (st st' : State)
    (hinv : selectionInvariant st) (hout : shutOut s st) (h : step date cmd st = some st') :
    shutOut s st' := by
  obtain ⟨hH, hS, hA, hP, hT⟩ := renderDispatch_cases st
  have hhome : renderDispatch st = Screen.HomeView → st.currentView = View.home := by
    intro hr
    rcases hH.1 hr with h1 | ⟨h1, h2⟩
    · exact h1
    · have := hinv.1 h1
      rw [h2] at this
      exact Bool.noConfusion this
  cases cmd with
  | tick =>
    simp only [step, Option.some.injEq] at h
    subst h
    unfold tick
    split_ifs <;> exact hout
  | cardClick key =>
    simp only [step] at h
    split_ifs at h with hr
    simp only [HomeView.onClick] at h
    split_ifs at h
    injection h with h
    subst h
    have hv := hhome hr
    have ht : (cardOnClick date key st).tasks = st.tasks := by
      dsimp only [cardOnClick]
      split_ifs <;> rfl
    refine ⟨by rw [ht]; exact hout.1, ?_⟩
    rw [cardOnClick_currentView, hv]
    rintro (h' | h') <;> exact View.noConfusion h'
  | addTaskButton key =>
    simp only [step] at h
    split_ifs at h with hr
    simp only [HomeView.onClick] at h
    split_ifs at h with hc
    injection h with h
    subst h
    refine ⟨hout.1, fun _ hsel => ?_⟩
    have hk : key = s := Option.some.inj hsel
    rw [hk] at hc
    exact hout.1 (List.length_eq_zero.1 hc.2)
  | openProjects =>
    simp only [step] at h
    split_ifs at h with hr
    simp only [HomeView.onClick, Option.some.injEq] at h
    subst h
    refine ⟨hout.1, ?_⟩
    rintro (h' | h') <;> exact View.noConfusion h'
  | openStats =>
    simp only [step] at h
    split_ifs at h with hr
    simp only [HomeView.onClick, Option.some.injEq] at h
    subst h
    refine ⟨hout.1, ?_⟩
    rintro (h' | h') <;> exact View.noConfusion h'
  | sessionBack =>
    simp only [step] at h
    split_ifs at h with hr
    injection h with h
    subst h
    refine ⟨hout.1, ?_⟩
    rintro (h' | h') <;> exact View.noConfusion h'
  | start =>
    simp only [step] at h
    split_ifs at h with hr
    injection h with h
    subst h
    exact hout
  | pause =>
    simp only [step] at h
    split_ifs at h with hr
    injection h with h
    subst h
    exact hout
  | complete =>
    simp only [step] at h
    split_ifs at h with hr
    injection h with h
    subst h
    exact hout
  | sessionAdd =>
    simp only [step] at h
    split_ifs at h with hr
    injection h with h
    subst h
    exact ⟨hout.1, fun _ => hout.2 (Or.inl (hS.1 hr).1)⟩
  | toggle idx =>
    simp only [step] at h
    split_ifs at h with hr
    have hne := hout.2 (Or.inl (hS.1 hr).1)
    unfold taskOnClick at h
    split at h
    · exact Option.noConfusion h
    · rename_i k hk
      split at h
      · exact Option.noConfusion h
      · split at h
        · exact Option.noConfusion h
        · injection h with h
          subst h
          have hks : s ≠ k := fun e => hne (by rw [hk, e])
          exact ⟨by
            show (st.tasks.set k _).list s ≠ []
            rw [TaskStore.list_set_ne _ _ _ _ hks]
            exact hout.1, hout.2⟩
  | addTaskBack =>
    simp only [step] at h
    split_ifs at h with hr
    injection h with h
    subst h
    exact ⟨hout.1, fun _ => hout.2 (Or.inr (hA.1 hr))⟩
  | submit title area =>
    simp only [step] at h
    split_ifs at h with hr
    injection h with h
    subst h
    have hne := hout.2 (Or.inr (hA.1 hr))
    unfold submitButtonClick submitOnClick
    split_ifs
    · exact hout
    · split
      · rename_i k hk
        have hks : s ≠ k := fun e => hne (by rw [hk, e])
        exact ⟨by
          show (st.tasks.set k _).list s ≠ []
          rw [TaskStore.list_set_ne _ _ _ _ hks]
          exact hout.1, fun _ => hne⟩
      · exact hout
  | close =>
    simp only [step] at h
    split_ifs at h with hr
    injection h with h
    subst h
    refine ⟨hout.1, ?_⟩
    rintro (h' | h') <;> exact View.noConfusion h'

/-- Both invariants hold along every run that starts in them. -/
theorem run_shutOut (s : SessionKey) (cmds : List (JsDate × Command)) (st st' : State)
    (hinv : selectionInvariant st) (hout : shutOut s st) (h : run cmds st = some st') :
    selectionInvariant st' ∧ shutOut s st' := by
  induction cmds generalizing st with
  | nil =>
    simp only [run, Option.some.injEq] at h
    subst h
    exact ⟨hinv, hout⟩
  | cons c rest ih =>
    obtain ⟨date, cmd⟩ := c
    simp only [run] at h
    split at h
    · exact Option.noConfusion h
    · rename_i st1 hstep
      exact ih st1 (step_selectionInvariant date cmd st st1 hinv hstep)
        (step_shutOut s date cmd st st1 hinv hout hstep) h

/-- C12: for every session `s`, the predicate "the task list of `s` is
non-empty and, if `currentView` is `session` or `addTask`, `selectedSession` is
not `s`" is preserved by every command from a state whose view is home,
projects or stats; hence from any such state in which `s` has a task, no
sequence of commands reaches a state that shows the session detail screen for
`s`.  The reasons: a card click never changes `currentView`, and the add-task
button, the only exit of the home screen towards the session screen, is
rendered only on a card whose task list is empty. -/
theorem session_with_tasks_never_shown (s : SessionKey) :
    (∀ (date : JsDate) (cmd : Command) (st st' : State),
      (st.currentView = View.home ∨ st.currentView = View.projects
        ∨ st.currentView = View.stats) →
      shutOut s st → step date cmd st = some st' → shutOut s st') ∧
    (∀ (cmds : List (JsDate × Command)) (st st' : State),
      (st.currentView = View.home ∨ st.currentView = View.projects
        ∨ st.currentView = View.stats) →
      st.tasks.list s ≠ [] → run cmds st = some st' →
      shutOut s st' ∧
      ¬ (renderDispatch st' = Screen.SessionView ∧ st'.selectedSession = some s)) ∧
    (∀ (date : JsDate) (key : SessionKey) (st : State),
      (cardOnClick date key st).currentView = st.currentView) ∧
    (∀ (date : JsDate) (key : SessionKey) (st st' : State),
      HomeView.onClick date st (HomeClick.addTaskButton key) = some st' →
      st.tasks.list key = []) := by
  have hinv : ∀ st : State,
      (st.currentView = View.home ∨ st.currentView = View.projects
        ∨ st.currentView = View.stats) → selectionInvariant st := by
    intro st hv
    constructor <;> intro h' <;> rw [h'] at hv <;>
      rcases hv with hv | hv | hv <;> exact View.noConfusion hv
  refine ⟨?_, ?_, cardOnClick_currentView, ?_⟩
  · intro date cmd st st' hv hout h
    exact step_shutOut s date cmd st st' (hinv st hv) hout h
  · intro cmds st st' hv hl h
    have hout : shutOut s st := by
      refine ⟨hl, fun h' => ?_⟩
      rcases h' with h' | h' <;> rw [h'] at hv <;>
        rcases hv with hv | hv | hv <;> exact View.noConfusion hv
    have hall := run_shutOut s cmds st st' (hinv st hv) hout h
    refine ⟨hall.2, fun hshown => ?_⟩
    exact hall.2.2 (Or.inl (((renderDispatch_cases st').2.1).1 hshown.1).1) hshown.2
  · intro date key st st' h
    simp only [HomeView.onClick] at h
    split_ifs at h with hc
    exact List.length_eq_zero.1 hc.2

/-- Instance of C12: with one morning task and the home screen up, a click on
the morning card, a visit to the projects view and back leave the home screen
up, not the session screen of the morning session. -/
theorem session_with_tasks_never_shown_witness :
    ∃ st' : State,
      run [(⟨0, 1⟩, Command.cardClick SessionKey.morning), (⟨0, 1⟩, Command.openProjects),
           (⟨0, 1⟩, Command.close)]
        { State.init with
          tasks := { State.init.tasks with
            morning := some [⟨"a", WorkArea.book, false⟩] } } = some st' ∧
      st'.selectedSession = some SessionKey.morning ∧
      renderDispatch st' = Screen.HomeView ∧
      ¬ (renderDispatch st' = Screen.SessionView ∧
        st'.selectedSession = some SessionKey.morning) :=
  ⟨_, rfl, rfl, rfl,
    ((session_with_tasks_never_shown SessionKey.morning).2.1
      [(⟨0, 1⟩, Command.cardClick SessionKey.morning), (⟨0, 1⟩, Command.openProjects),
       (⟨0, 1⟩, Command.close)]
      { State.init with
        tasks := { State.init.tasks with
          morning := some [⟨"a", WorkArea.book, false⟩] } } _
      (Or.inl rfl) (by decide) rfl).2⟩

end Scheduler
